import Mathlib

/-!
Shallow embedding of the aklang runtime core (scope stack, expression and
statement evaluators, module and import resolution), translated from
src/runtime/mod.rs, src/runtime/eval/expression.rs, src/runtime/eval/statement.rs
and src/runtime/eval/program.rs. Parts of the repository that those files
reference but that are not present in the source tree (the ast node types, the
Value enum in runtime/value.rs, ScopeStack::declare_builtin, and the
four-argument eval_expression that eval_statement calls) are modelled from the
design document and are marked as such.

Rust Result<T, String> values are embedded as Res T, which additionally
distinguishes abnormal termination (panics raised by .expect / .unwrap) and
exhaustion of the fuel that makes the embedding of general recursion total.
Single-quote decoration inside Rust format strings is dropped from the
embedded error messages.
-/

/-- Modelled from the spec (ast module is not under src): literal kinds are
integer, float and string. The f64 payload is carried opaquely as its bit
pattern; the core never computes with floats. -/
inductive Literal where
  | int (n : Int)
  | float (bits : Nat)
  | str (s : String)

/-- Modelled from the spec (ast module is not under src): expression nodes are
Literal, Call(name, args) and Identifier(name). -/
inductive Expression where
  | literal (l : Literal)
  | call (name : String) (args : List Expression)
  | identifier (name : String)

mutual
/-- Modelled from the spec (ast module is not under src): the statement kinds
listed in the design document, with the constructor shapes used by
eval_statement in src/runtime/eval/statement.rs. -/
inductive Statement where
  | expressionStatement (e : Expression)
  | letStatement (name : String) (rhs : Expression)
  | constStatement (name : String) (rhs : Expression)
  | importStatement (args : List String) (items : Option (List String))
  | assignmentStatement (name : String) (rhs : Expression)
  | ifStatement (branchs : List Branch) (elseBlock : Option (List Statement))
  | returnStatement (e : Expression)
  | fnStatement (name : String) (args : List String) (block : List Statement)
  | forStatement (lhs : String) (iter : Expression) (block : List Statement)
  | breakStatement
  | continueStatement
  | whileStatement (cond : Expression) (block : List Statement)
  | moduleStatement (name : String) (statements : List Statement)

/-- One `if`/`elif` branch: a condition and a block, as accessed through
branch.condition and branch.statements in eval_statement. -/
inductive Branch where
  | mk (condition : Expression) (statements : List Statement)
end

def Branch.condition : Branch → Expression
  | .mk c _ => c

def Branch.statements : Branch → List Statement
  | .mk _ s => s

/-- Mutability tag of a binding, from src/runtime/mod.rs. -/
inductive DeclType where
  | mutable
  | immutable

/-- Modelled from the spec (runtime/value.rs is not under src): the closed
tagged union of runtime values. BuiltInFn is an opaque native callable and is
embedded as a tag that an external interpretation maps to a function; Module
carries its BTreeMap of exports as a key-sorted association list; null is the
unit-equivalent default value a function call yields when its body falls
through. -/
inductive Value where
  | int (n : Int)
  | float (bits : Nat)
  | str (s : String)
  | bool (b : Bool)
  | list (items : List Value)
  | object (pairs : List (String × Value))
  | func (params : List String) (block : List Statement)
  | builtinFn (tag : Nat)
  | module (exports : List (String × Value))
  | null

/-- Export tree produced by modules and built-in namespaces, from the Export
enum used by src/runtime/eval/statement.rs and src/runtime/std/mod.rs. -/
inductive Export where
  | item (name : String) (value : Value)
  | module (name : String) (exports : List Export)

/-- Result of running a piece of the interpreter: ok and err embed Rust
Result::Ok / Result::Err(String); panic embeds abnormal termination through
.expect / .unwrap; fuel is an artifact of the embedding (the fuel that makes
general recursion total ran out). -/
inductive Res (α : Type) where
  | ok (v : α)
  | err (msg : String)
  | panic (msg : String)
  | fuel

def Res.bind {α β : Type} : Res α → (α → Res β) → Res β
  | .ok v, f => f v
  | .err m, _ => .err m
  | .panic m, _ => .panic m
  | .fuel, _ => .fuel

instance : Monad Res where
  pure := Res.ok
  bind := Res.bind

/-- One scope frame: HashMap<String, (Value, DeclType)> embedded as an
association list; lookup takes the first entry with the key, and insertion
prepends, which realises HashMap::insert overwriting semantics. -/
abbrev Scope := List (String × Value × DeclType)

def scopeGet : Scope → String → Option (Value × DeclType)
  | [], _ => none
  | (k, vd) :: rest, n => if k = n then some vd else scopeGet rest n

def scopeInsert (s : Scope) (k : String) (v : Value) (t : DeclType) : Scope :=
  (k, v, t) :: s

/-- The scope stack: the Vec of Arc-shared frames from src/runtime/mod.rs,
embedded with the innermost (topmost) frame at the head of the list, so that
Vec::last is the head and iterating rev() is iterating in order. Because every
operation below only rewrites frames in place (never inserts or removes a
frame in the middle), the Arc sharing between parent and child views is
realised by returning the updated stack and letting a caller that pushed a
frame drop the head again. -/
abbrev ScopeStack := List Scope

def ScopeStack.newFromPush (st : ScopeStack) (scope : Scope) : ScopeStack :=
  scope :: st

def ScopeStack.declare (st : ScopeStack) (name : String) (value : Value)
    (declType : DeclType) : Res ScopeStack :=
  match st with
  | [] => .panic "ScopeStack stack should not be empty"
  | top :: rest =>
    if (scopeGet top name).isSome then
      .err (name ++ " already define in this scope")
    else
      .ok (scopeInsert top name value declType :: rest)

def ScopeStack.assgin (st : ScopeStack) (name : String) (value : Value) :
    Res ScopeStack :=
  match st with
  | [] => .err (name ++ " is not defined")
  | scope :: rest =>
    match scopeGet scope name with
    | some (_, .immutable) => .err ("cannot mutate a immutable item " ++ name)
    | some (_, .mutable) => .ok (scopeInsert scope name value .mutable :: rest)
    | none =>
      match ScopeStack.assgin rest name value with
      | .ok rest2 => .ok (scope :: rest2)
      | .err m => .err m
      | .panic m => .panic m
      | .fuel => .fuel

def ScopeStack.get (st : ScopeStack) (name : String) : Option Value :=
  match st with
  | [] => none
  | scope :: rest =>
    match scopeGet scope name with
    | some vd => some vd.1
    | none => ScopeStack.get rest name

/-- Modelled from the spec: ScopeStack::declare_builtin is called by
apply_imports but is not under src. Per the design document it installs the
binding directly (bypassing the duplicate-in-frame check used for ordinary
declarations) and always succeeds on a nonempty stack; it is embedded as an
unconditional insert into the topmost frame. -/
def ScopeStack.declareBuiltin (st : ScopeStack) (name : String) (value : Value)
    (declType : DeclType) : Res ScopeStack :=
  match st with
  | [] => .panic "ScopeStack stack should not be empty"
  | top :: rest => .ok (scopeInsert top name value declType :: rest)

/-- The strict lexicographic order on the character data of strings, written
out executably; this is the ordering BTreeMap<String, _> keeps its keys in. -/
def strLtB : List Char → List Char → Bool
  | [], [] => false
  | [], _ :: _ => true
  | _ :: _, [] => false
  | a :: as, b :: bs =>
    if a.toNat < b.toNat then true
    else if b.toNat < a.toNat then false
    else strLtB as bs

def strLt (a b : String) : Bool := strLtB a.data b.data

/-- BTreeMap<String, Value>::insert embedded on a strictly key-sorted
association list: entries are kept in ascending key order and inserting an
existing key replaces its value. -/
def btreeInsert : List (String × Value) → String → Value → List (String × Value)
  | [], k, v => [(k, v)]
  | (k1, v1) :: rest, k, v =>
    if strLt k k1 then (k, v) :: (k1, v1) :: rest
    else if k = k1 then (k, v) :: rest
    else (k1, v1) :: btreeInsert rest k v

/-- The interpretation of the opaque native callables: a BuiltInFn tag plus an
ordered argument list yields Result<Value, String>. The core never inspects
these. -/
abbrev BuiltinImpl := Nat → List Value → Except String Value

/-- HashMap<String, Value> environment of the earlier expression evaluator,
embedded as an association list (first entry with the key wins). -/
abbrev Env := List (String × Value)

def envGet : Env → String → Option Value
  | [], _ => none
  | (k, v) :: rest, n => if k = n then some v else envGet rest n

mutual
/-- The earlier two-argument eval_expression present in
src/runtime/eval/expression.rs. Its Call arm looks the callee up with .expect,
which aborts the process when the name is unbound; this is embedded as
Res.panic. The identifier arm returns an ordinary Err (its println side effect
is not modelled). Fuel only totalizes the embedding. -/
def evalExpressionOld (B : BuiltinImpl) (fuel : Nat) (env : Env)
    (expression : Expression) : Res Value :=
  match fuel with
  | 0 => .fuel
  | fuel + 1 =>
    match expression with
    | .literal l =>
      match l with
      | .int n => .ok (.int n)
      | .float n => .ok (.float n)
      | .str s => .ok (.str s)
    | .call name args =>
      match envGet env name with
      | none => .panic (name ++ " function is not defined")
      | some f =>
        match f with
        | .builtinFn tag => do
          let values ← evalArgsOld B fuel env args
          match B tag values with
          | .ok v => .ok v
          | .error m => .err m
        | _ => .err (name ++ " is not a function")
    | .identifier name =>
      match envGet env name with
      | some data => .ok data
      | none => .err ("variable " ++ name ++ " is not defied")

/-- The argument-evaluation loop inside the Call arm of the earlier
eval_expression: left to right, stopping at the first failure. -/
def evalArgsOld (B : BuiltinImpl) (fuel : Nat) (env : Env)
    (args : List Expression) : Res (List Value) :=
  match fuel with
  | 0 => .fuel
  | fuel + 1 =>
    match args with
    | [] => .ok []
    | a :: rest => do
      let v ← evalExpressionOld B fuel env a
      let vs ← evalArgsOld B fuel env rest
      .ok (v :: vs)
end

/-- The name of either Export variant, as matched by the find closure in
apply_imports. -/
def Export.exportName : Export → String
  | .item n _ => n
  | .module n _ => n

/-- last.to_vec().into_iter().find(...) in apply_imports: the first export
whose name is the searched segment. -/
def findExport : List Export → String → Option Export
  | [], _ => none
  | e :: rest, arg => if Export.exportName e = arg then some e else findExport rest arg

/-- The object-building loops of apply_imports: the immediate Item children of
an export list, in order, as key/value pairs. -/
def collectItems : List Export → List (String × Value)
  | [] => []
  | .item n v :: rest => (n, v) :: collectItems rest
  | .module _ _ :: rest => collectItems rest

/-- The allow-list branch of apply_imports: every nested sub-module is bound
as an Object of its immediate items under the sub-module name, and every
direct Item whose name the allow-list contains is bound under its own name. -/
def bindAllowList (scopes : ScopeStack) (exports : List Export)
    (items : List String) : Res ScopeStack :=
  match exports with
  | [] => .ok scopes
  | .module n1 exps :: rest => do
    let scopes2 ← ScopeStack.declareBuiltin scopes n1 (.object (collectItems exps)) .immutable
    bindAllowList scopes2 rest items
  | .item n v :: rest =>
    if items.contains n then do
      let scopes2 ← ScopeStack.declareBuiltin scopes n v .immutable
      bindAllowList scopes2 rest items
    else bindAllowList scopes rest items

/-- apply_imports from src/runtime/eval/statement.rs, with the indexed loop
over the dotted path rendered as recursion over the remaining segments
(args.get(i+1) being None is the remaining-segment list being empty). -/
def applyImports (scopes : ScopeStack) (modules : List Export)
    (args : List String) (items : Option (List String)) : Res ScopeStack :=
  match args with
  | [] => .ok scopes
  | arg :: restArgs =>
    match findExport modules arg with
    | none => .err ("module or item " ++ arg ++ " not found")
    | some (.module _ exports) =>
      match restArgs with
      | [] =>
        match items with
        | some its => bindAllowList scopes exports its
        | none =>
          ScopeStack.declareBuiltin scopes arg (.object (collectItems exports)) .immutable
      | _ :: _ => applyImports scopes exports restArgs items
    | some (.item name value) =>
      if items.isSome then .err (name ++ " is not a module")
      else
        match restArgs with
        | _ :: _ => .err (arg ++ " is not a module")
        | [] => ScopeStack.declareBuiltin scopes arg value .immutable

/-- The per-type method table threaded through the evaluators. The statement
evaluator only clones and passes it on, and the expression nodes of the design
document have no method-call form, so it is embedded opaquely. -/
def Prototypes := Unit

/-- Escape enum from src/runtime/eval/statement.rs; brk and cont embed Break
and Continue. -/
inductive Escape where
  | none
  | ret (v : Value)
  | brk
  | cont

/-- Stand-in for the Debug formatting used by the unsupported-in-module error
message: the constructor name of a statement. -/
def Statement.kindName : Statement → String
  | .expressionStatement _ => "ExpressionStatement"
  | .letStatement _ _ => "LetStatement"
  | .constStatement _ _ => "ConstStatement"
  | .importStatement _ _ => "ImportStatement"
  | .assignmentStatement _ _ => "AssignmentStatement"
  | .ifStatement _ _ => "IfStatement"
  | .returnStatement _ => "ReturnStatement"
  | .fnStatement _ _ _ => "FnStatement"
  | .forStatement _ _ _ => "ForStatement"
  | .breakStatement => "BreakStatement"
  | .continueStatement => "ContinueStatement"
  | .whileStatement _ _ => "WhileStatement"
  | .moduleStatement _ _ => "ModuleStatement"

/-- Modelled from the spec: parameter binding for a user function call, one
declare per parameter/argument pair into the fresh child frame. -/
def bindParams (scopes : ScopeStack) : List (String × Value) → Res ScopeStack
  | [] => .ok scopes
  | (p, v) :: rest => do
    let scopes2 ← ScopeStack.declare scopes p v .mutable
    bindParams scopes2 rest

mutual
/-- Modelled from the spec: the four-argument eval_expression that
eval_statement calls is not under src (the expression.rs present there has an
incompatible earlier two-argument signature over a plain HashMap environment,
so it cannot be the function those call sites invoke). Embedded from design
document section 4.2: literals; identifier lookup failing with an
undefined-name error; Call resolving the callee via lookup, evaluating
arguments left to right, then dispatching on BuiltInFn (error propagated
verbatim) or Func (arity mismatch detected before binding; parameters bound in
a fresh child frame; the body run as a block with Return yielding the value,
fallthrough yielding the unit-equivalent default, and Break/Continue being
control-flow-outside-loop errors); any other callee kind is a not-callable
error. -/
def evalExpression (B : BuiltinImpl) (fuel : Nat) (scopes : ScopeStack)
    (expression : Expression) (modules : List Export) (prototypes : Prototypes) :
    Res (Value × ScopeStack) :=
  match fuel with
  | 0 => .fuel
  | fuel + 1 =>
    match expression with
    | .literal l =>
      match l with
      | .int n => .ok (.int n, scopes)
      | .float n => .ok (.float n, scopes)
      | .str s => .ok (.str s, scopes)
    | .identifier name =>
      match ScopeStack.get scopes name with
      | some v => .ok (v, scopes)
      | none => .err ("variable " ++ name ++ " is not defied")
    | .call name args =>
      match ScopeStack.get scopes name with
      | none => .err ("variable " ++ name ++ " is not defied")
      | some f => do
        let (values, s) ← evalArgs B fuel scopes args modules prototypes
        match f with
        | .builtinFn tag =>
          (match B tag values with
           | .ok v => .ok (v, s)
           | .error m => .err m)
        | .func params block =>
          if values.length ≠ params.length then
            .err ("expected " ++ toString params.length ++ " arguments but got "
              ++ toString values.length)
          else do
            let inner ← bindParams (ScopeStack.newFromPush s []) (params.zip values)
            let (e, inner2) ← evalStatements B fuel inner block modules prototypes
            match e with
            | .ret v => .ok (v, inner2.tail)
            | .none => .ok (.null, inner2.tail)
            | .brk => .err "break outside of loop"
            | .cont => .err "continue outside of loop"
        | _ => .err (name ++ " is not a function")

/-- Left-to-right evaluation of call arguments, threading the scope stack. -/
def evalArgs (B : BuiltinImpl) (fuel : Nat) (scopes : ScopeStack)
    (args : List Expression) (modules : List Export) (prototypes : Prototypes) :
    Res (List Value × ScopeStack) :=
  match fuel with
  | 0 => .fuel
  | fuel + 1 =>
    match args with
    | [] => .ok ([], scopes)
    | a :: rest => do
      let (v, s) ← evalExpression B fuel scopes a modules prototypes
      let (vs, s2) ← evalArgs B fuel s rest modules prototypes
      .ok (v :: vs, s2)

/-- eval_statement from src/runtime/eval/statement.rs. -/
def evalStatement (B : BuiltinImpl) (fuel : Nat) (scopes : ScopeStack)
    (statement : Statement) (modules : List Export) (prototypes : Prototypes) :
    Res (Escape × ScopeStack) :=
  match fuel with
  | 0 => .fuel
  | fuel + 1 =>
    match statement with
    | .expressionStatement expr => do
      let (_, s) ← evalExpression B fuel scopes expr modules prototypes
      .ok (.none, s)
    | .letStatement name rhs => do
      let (value, s) ← evalExpression B fuel scopes rhs modules prototypes
      let s2 ← ScopeStack.declare s name value .mutable
      .ok (.none, s2)
    | .constStatement name rhs => do
      let (value, s) ← evalExpression B fuel scopes rhs modules prototypes
      let s2 ← ScopeStack.declare s name value .immutable
      .ok (.none, s2)
    | .importStatement args items => do
      let s ← applyImports scopes modules args items
      .ok (.none, s)
    | .assignmentStatement name rhs => do
      let (value, s) ← evalExpression B fuel scopes rhs modules prototypes
      let s2 ← ScopeStack.assgin s name value
      .ok (.none, s2)
    | .ifStatement branchs elseBlock =>
      evalIfBranches B fuel scopes branchs elseBlock modules prototypes
    | .returnStatement expr => do
      let (value, s) ← evalExpression B fuel scopes expr modules prototypes
      .ok (.ret value, s)
    | .fnStatement name args block => do
      let s ← ScopeStack.declare scopes name (.func args block) .immutable
      .ok (.none, s)
    | .forStatement lhs iter block => do
      let (iterVal, s) ← evalExpression B fuel scopes iter modules prototypes
      match iterVal with
      | .list values => evalFor B fuel s lhs values block modules prototypes
      | _ => .err "iterator most be a list"
    | .breakStatement => .ok (.brk, scopes)
    | .continueStatement => .ok (.cont, scopes)
    | .whileStatement cond block =>
      evalWhile B fuel scopes cond block modules prototypes
    | .moduleStatement name statements => do
      let (m, s) ← evalModule B fuel scopes modules prototypes name statements
      let s2 ← ScopeStack.declare s name (.module m) .immutable
      .ok (.none, s2)

/-- The branch loop of the IfStatement arm: the first condition evaluating to
Bool(true) has its block run and its escape returned; a non-Bool condition is
a type error; with no matching branch the else block runs if present. -/
def evalIfBranches (B : BuiltinImpl) (fuel : Nat) (scopes : ScopeStack)
    (branchs : List Branch) (elseBlock : Option (List Statement))
    (modules : List Export) (prototypes : Prototypes) :
    Res (Escape × ScopeStack) :=
  match fuel with
  | 0 => .fuel
  | fuel + 1 =>
    match branchs with
    | [] =>
      match elseBlock with
      | some stmts => evalStatements B fuel scopes stmts modules prototypes
      | none => .ok (.none, scopes)
    | .mk condition stmts :: rest => do
      let (value, s) ← evalExpression B fuel scopes condition modules prototypes
      match value with
      | .bool b =>
        if b then evalStatements B fuel s stmts modules prototypes
        else evalIfBranches B fuel s rest elseBlock modules prototypes
      | _ => .err "condition most be a boolean"

/-- The element loop of the ForStatement arm: per element a child frame is
pushed binding the loop name as Mutable and the body runs as a block;
None/Continue move to the next element, Break ends the loop with Escape::None,
Return ends the loop propagating the value. Falling off the end yields
Escape::None. -/
def evalFor (B : BuiltinImpl) (fuel : Nat) (scopes : ScopeStack) (lhs : String)
    (values : List Value) (block : List Statement) (modules : List Export)
    (prototypes : Prototypes) : Res (Escape × ScopeStack) :=
  match fuel with
  | 0 => .fuel
  | fuel + 1 =>
    match values with
    | [] => .ok (.none, scopes)
    | value :: rest => do
      let inner ← ScopeStack.declare (ScopeStack.newFromPush scopes []) lhs value .mutable
      let (ret, inner2) ← evalStatements B fuel inner block modules prototypes
      match ret with
      | .none => evalFor B fuel inner2.tail lhs rest block modules prototypes
      | .cont => evalFor B fuel inner2.tail lhs rest block modules prototypes
      | .ret v => .ok (.ret v, inner2.tail)
      | .brk => .ok (.none, inner2.tail)

/-- The WhileStatement loop: the condition is re-evaluated each iteration and
must be Bool; the body runs as a block with the same Break/Continue/Return
handling as the for loop. -/
def evalWhile (B : BuiltinImpl) (fuel : Nat) (scopes : ScopeStack)
    (cond : Expression) (block : List Statement) (modules : List Export)
    (prototypes : Prototypes) : Res (Escape × ScopeStack) :=
  match fuel with
  | 0 => .fuel
  | fuel + 1 => do
    let (value, s) ← evalExpression B fuel scopes cond modules prototypes
    match value with
    | .bool b =>
      if b then do
        let (ret, s2) ← evalStatements B fuel s block modules prototypes
        match ret with
        | .none => evalWhile B fuel s2 cond block modules prototypes
        | .cont => evalWhile B fuel s2 cond block modules prototypes
        | .ret v => .ok (.ret v, s2)
        | .brk => .ok (.none, s2)
      else .ok (.none, s)
    | _ => .err "condition most be a boolean"

/-- eval_statements from src/runtime/eval/statement.rs: push one child frame,
run the statement sequence inside it, and drop the frame again (the Arc-shared
outer frames, possibly updated, are what the caller keeps seeing). -/
def evalStatements (B : BuiltinImpl) (fuel : Nat) (scopes : ScopeStack)
    (statements : List Statement) (modules : List Export)
    (prototypes : Prototypes) : Res (Escape × ScopeStack) :=
  match fuel with
  | 0 => .fuel
  | fuel + 1 => do
    let (e, inner) ← evalStmtSeq B fuel (ScopeStack.newFromPush scopes [])
      statements modules prototypes
    .ok (e, inner.tail)

/-- The statement loop inside eval_statements: a function declaration never
terminates the block; otherwise the first non-None escape stops the block and
is returned. -/
def evalStmtSeq (B : BuiltinImpl) (fuel : Nat) (scopes : ScopeStack)
    (statements : List Statement) (modules : List Export)
    (prototypes : Prototypes) : Res (Escape × ScopeStack) :=
  match fuel with
  | 0 => .fuel
  | fuel + 1 =>
    match statements with
    | [] => .ok (.none, scopes)
    | statement :: rest => do
      let (e, s) ← evalStatement B fuel scopes statement modules prototypes
      match statement with
      | .fnStatement _ _ _ => evalStmtSeq B fuel s rest modules prototypes
      | _ =>
        match e with
        | .none => evalStmtSeq B fuel s rest modules prototypes
        | _ => .ok (e, s)

/-- eval_module from src/runtime/eval/statement.rs: push a child frame, fold
the body through evalModuleBody accumulating the BTreeMap of exports, then
declare the module name (bound to the Module value) inside the child frame,
and hand the caller back its own view of the stack. -/
def evalModule (B : BuiltinImpl) (fuel : Nat) (scopes : ScopeStack)
    (modules : List Export) (prototypes : Prototypes) (name : String)
    (statements : List Statement) : Res (List (String × Value) × ScopeStack) :=
  match fuel with
  | 0 => .fuel
  | fuel + 1 => do
    let (exports, inner) ← evalModuleBody B fuel (ScopeStack.newFromPush scopes [])
      [] statements modules prototypes
    let inner2 ← ScopeStack.declare inner name (.module exports) .immutable
    .ok (exports, inner2.tail)

/-- The statement loop of eval_module: only const, let, function and nested
module declarations are processed, each inserted into the BTreeMap of exports;
no declaration is made into the scope stack; any other statement kind is an
unsupported-in-module error. -/
def evalModuleBody (B : BuiltinImpl) (fuel : Nat) (innerScope : ScopeStack)
    (exports : List (String × Value)) (statements : List Statement)
    (modules : List Export) (prototypes : Prototypes) :
    Res (List (String × Value) × ScopeStack) :=
  match fuel with
  | 0 => .fuel
  | fuel + 1 =>
    match statements with
    | [] => .ok (exports, innerScope)
    | statement :: rest =>
      match statement with
      | .constStatement n expr => do
        let (value, s) ← evalExpression B fuel innerScope expr modules prototypes
        evalModuleBody B fuel s (btreeInsert exports n value) rest modules prototypes
      | .letStatement n expr => do
        let (value, s) ← evalExpression B fuel innerScope expr modules prototypes
        evalModuleBody B fuel s (btreeInsert exports n value) rest modules prototypes
      | .fnStatement n args block =>
        evalModuleBody B fuel innerScope (btreeInsert exports n (.func args block))
          rest modules prototypes
      | .moduleStatement n2 statements2 => do
        let (exports2, s) ← evalModule B fuel innerScope modules prototypes n2 statements2
        evalModuleBody B fuel s (btreeInsert exports n2 (.module exports2))
          rest modules prototypes
      | other => .err (Statement.kindName other ++ " is not supported in modules")
end

/-- A trivial interpretation of the opaque native callables, used to
instantiate theorems on concrete inputs; no claim depends on what a builtin
computes. -/
def noBuiltins : BuiltinImpl := fun _ _ => .error "unsupported"

/-- The Value a Literal evaluates to (the literal arm of the expression
evaluators). -/
def literalValue : Literal → Value
  | .int n => .int n
  | .float b => .float b
  | .str s => .str s

/-- Specification-side description of the bindings the allow-list branch of
apply_imports creates, in order: every nested sub-module flattened to an
Object under the sub-module name, and every direct Item whose name the
allow-list contains under its own name. Compared against bindAllowList, which
is translated from the source. -/
def allowListBindings (exports : List Export) (its : List String) :
    List (String × Value) :=
  match exports with
  | [] => []
  | .module n1 exps :: rest =>
    (n1, .object (collectItems exps)) :: allowListBindings rest its
  | .item n v :: rest =>
    if its.contains n then (n, v) :: allowListBindings rest its
    else allowListBindings rest its

/-- The topmost frame after a sequence of declare_builtin installs of the
given name/value pairs (each always Immutable). -/
def frameAfter (top : Scope) (bs : List (String × Value)) : Scope :=
  match bs with
  | [] => top
  | (k, v) :: rest => frameAfter (scopeInsert top k v .immutable) rest


/-- The (name, value) pairs a module body produces, in source order, keeping
every declaration (duplicates included) instead of inserting into the BTreeMap
of exports; the scope stack is threaded exactly as evalModuleBody threads it.
Folding btreeInsert over this trace recovers evalModuleBody (proved below), so
the evaluation outcome never depends on the exports accumulated so far. -/
def moduleDecls (B : BuiltinImpl) (fuel : Nat) (innerScope : ScopeStack)
    (statements : List Statement) (modules : List Export)
    (prototypes : Prototypes) : Res (List (String × Value) × ScopeStack) :=
  match fuel with
  | 0 => .fuel
  | fuel + 1 =>
    match statements with
    | [] => .ok ([], innerScope)
    | statement :: rest =>
      match statement with
      | .constStatement n expr => do
        let (value, s) ← evalExpression B fuel innerScope expr modules prototypes
        let (ds, s2) ← moduleDecls B fuel s rest modules prototypes
        .ok ((n, value) :: ds, s2)
      | .letStatement n expr => do
        let (value, s) ← evalExpression B fuel innerScope expr modules prototypes
        let (ds, s2) ← moduleDecls B fuel s rest modules prototypes
        .ok ((n, value) :: ds, s2)
      | .fnStatement n args block => do
        let (ds, s2) ← moduleDecls B fuel innerScope rest modules prototypes
        .ok ((n, .func args block) :: ds, s2)
      | .moduleStatement n2 statements2 => do
        let (exports2, s) ← evalModule B fuel innerScope modules prototypes n2 statements2
        let (ds, s2) ← moduleDecls B fuel s rest modules prototypes
        .ok ((n2, .module exports2) :: ds, s2)
      | other => .err (Statement.kindName other ++ " is not supported in modules")

/-- Lookup in the BTreeMap embedding (first entry with the key; on the sorted
lists produced by btreeInsert keys are unique). -/
def btreeLookup : List (String × Value) → String → Option Value
  | [], _ => none
  | (k, v) :: rest, n => if k = n then some v else btreeLookup rest n

/-- The value of the last entry with the given name in a declaration trace, in
source order; none when the name is never declared. -/
def lastValue : List (String × Value) → String → Option Value
  | [], _ => none
  | (k, v) :: rest, n =>
    match lastValue rest n with
    | some w => some w
    | none => if k = n then some v else none

/-- Pointwise preservation of the key set of every frame between two scope
stacks of the same depth: each frame holds exactly the same names (values and
entry multiplicities may differ, since assignment prepends a fresh entry).
This is the shape in which the evaluator leaves every scope view it is given:
names are only added to frames the evaluator itself pushes. -/
def framesKeyEq : ScopeStack → ScopeStack → Prop
  | [], [] => True
  | f :: r, f2 :: r2 =>
    (∀ k, (scopeGet f k).isSome = (scopeGet f2 k).isSome) ∧ framesKeyEq r r2
  | _, _ => False

@[simp]
theorem Res.bind_ok {α β : Type} (v : α) (f : α → Res β) :
    (Res.ok v >>= f) = f v := rfl

@[simp]
theorem Res.bind_err {α β : Type} (m : String) (f : α → Res β) :
    ((Res.err m : Res α) >>= f) = .err m := rfl

@[simp]
theorem Res.bind_panic {α β : Type} (m : String) (f : α → Res β) :
    ((Res.panic m : Res α) >>= f) = .panic m := rfl

@[simp]
theorem Res.bind_fuel {α β : Type} (f : α → Res β) :
    ((Res.fuel : Res α) >>= f) = .fuel := rfl

@[simp]
theorem Res.pure_eq_ok {α : Type} (v : α) : (pure v : Res α) = .ok v := rfl

@[simp]
theorem scopeGet_insert_self (s : Scope) (k : String) (v : Value) (t : DeclType) :
    scopeGet (scopeInsert s k v t) k = some (v, t) := by
  simp [scopeInsert, scopeGet]

theorem scopeGet_insert_ne (s : Scope) (k n : String) (v : Value) (t : DeclType)
    (h : k ≠ n) : scopeGet (scopeInsert s k v t) n = scopeGet s n := by
  simp [scopeInsert, scopeGet, h]

/-- C6. For every name n, declaring n twice in the same scope frame fails with
the duplicate-declaration error; declaring n in a pushed child frame succeeds
even when an outer frame binds n (shadowing) and is visible there; the outer
frames are not removed or altered by it, so once the child frame view is
dropped the outer binding is looked up again exactly as before. -/
theorem declare_shadowing (st : ScopeStack) (n : String) (v v2 : Value)
    (t t2 : DeclType) :
    (∀ st2, ScopeStack.declare st n v t = .ok st2 →
      ScopeStack.declare st2 n v2 t2 = .err (n ++ " already define in this scope"))
    ∧ ScopeStack.declare (ScopeStack.newFromPush st []) n v t
        = .ok ([(n, v, t)] :: st)
    ∧ ScopeStack.get ([(n, v, t)] :: st) n = some v
    ∧ (([(n, v, t)] :: st) : ScopeStack).tail = st
    ∧ ScopeStack.get (([(n, v, t)] :: st) : ScopeStack).tail n = ScopeStack.get st n := by
  refine ⟨?_, ?_, ?_, rfl, rfl⟩
  · intro st2 h
    cases st with
    | nil => simp [ScopeStack.declare] at h
    | cons top rest =>
      by_cases hc : (scopeGet top n).isSome
      · simp [ScopeStack.declare, hc] at h
      · simp [ScopeStack.declare, hc] at h
        subst h
        simp [ScopeStack.declare]
  · simp [ScopeStack.declare, ScopeStack.newFromPush, scopeGet, scopeInsert]
  · simp [ScopeStack.get, scopeGet]

/-- Witness for C6 at a concrete input: a frame already holding x rejects a
second declaration of x. -/
theorem declare_shadowing_witness :
    ScopeStack.declare [[("x", Value.int 1, DeclType.mutable)]] "x"
      (Value.int 2) DeclType.mutable = .err "x already define in this scope" :=
  (declare_shadowing [[]] "x" (Value.int 1) (Value.int 2) DeclType.mutable
    DeclType.mutable).1 [[("x", Value.int 1, DeclType.mutable)]] rfl

/-- assgin walks past frames that do not contain the name, reassembling the
stack around the recursive result. -/
theorem assgin_skip_pre (pre : List Scope) (rest : ScopeStack) (n : String)
    (v : Value) (hpre : ∀ f ∈ pre, scopeGet f n = none) :
    ScopeStack.assgin (pre ++ rest) n v =
      match ScopeStack.assgin rest n v with
      | .ok rest2 => .ok (pre ++ rest2)
      | .err m => .err m
      | .panic m => .panic m
      | .fuel => .fuel := by
  induction pre with
  | nil =>
    simp only [List.nil_append]
    cases ScopeStack.assgin rest n v <;> rfl
  | cons f pre2 ih =>
    have hf : scopeGet f n = none := hpre f (by simp)
    have ih2 := ih (fun g hg => hpre g (by simp [hg]))
    cases h : ScopeStack.assgin rest n v with
    | ok rest2 => rw [h] at ih2; simp [ScopeStack.assgin, hf, ih2]
    | err m => rw [h] at ih2; simp [ScopeStack.assgin, hf, ih2]
    | panic m => rw [h] at ih2; simp [ScopeStack.assgin, hf, ih2]
    | fuel => rw [h] at ih2; simp [ScopeStack.assgin, hf, ih2]

/-- Lookup also walks past frames that do not contain the name. -/
theorem get_skip_pre (pre : List Scope) (rest : ScopeStack) (n : String)
    (hpre : ∀ f ∈ pre, scopeGet f n = none) :
    ScopeStack.get (pre ++ rest) n = ScopeStack.get rest n := by
  induction pre with
  | nil => rfl
  | cons f pre2 ih =>
    have hf : scopeGet f n = none := hpre f (by simp)
    have ih2 := ih (fun g hg => hpre g (by simp [hg]))
    simp only [List.cons_append, ScopeStack.get, hf]
    exact ih2

/-- C7. For every assignment to n, the first frame (innermost to outermost)
containing n decides the outcome: an Immutable binding there fails with the
immutable-mutation error, a Mutable one is replaced (the inserted binding
keeps the Mutable tag) and subsequent lookup observes the new value; when no
frame contains n the assignment fails with the undefined-name error. -/
theorem assgin_first_frame_decides (pre : List Scope) (fr : Scope)
    (rest : List Scope) (n : String) (v : Value)
    (hpre : ∀ f ∈ pre, scopeGet f n = none) :
    (∀ v0, scopeGet fr n = some (v0, .immutable) →
      ScopeStack.assgin (pre ++ fr :: rest) n v
        = .err ("cannot mutate a immutable item " ++ n))
    ∧ (∀ v0, scopeGet fr n = some (v0, .mutable) →
      ScopeStack.assgin (pre ++ fr :: rest) n v
          = .ok (pre ++ scopeInsert fr n v .mutable :: rest)
        ∧ ScopeStack.get (pre ++ scopeInsert fr n v .mutable :: rest) n = some v)
    ∧ (∀ st : ScopeStack, (∀ f ∈ st, scopeGet f n = none) →
      ScopeStack.assgin st n v = .err (n ++ " is not defined")) := by
  refine ⟨?_, ?_, ?_⟩
  · intro v0 h
    rw [assgin_skip_pre pre (fr :: rest) n v hpre]
    simp [ScopeStack.assgin, h]
  · intro v0 h
    constructor
    · rw [assgin_skip_pre pre (fr :: rest) n v hpre]
      simp [ScopeStack.assgin, h]
    · rw [get_skip_pre pre (scopeInsert fr n v .mutable :: rest) n hpre]
      simp [ScopeStack.get, scopeGet_insert_self]
  · intro st hall
    induction st with
    | nil => rfl
    | cons f st2 ih =>
      have hf : scopeGet f n = none := hall f (by simp)
      have ih2 := ih (fun g hg => hall g (by simp [hg]))
      simp [ScopeStack.assgin, hf, ih2]

/-- Witness for C7 at concrete inputs: a const binding in an outer frame
rejects assignment, a let binding accepts it and lookup sees the new value,
and an absent name is an undefined-name error. -/
theorem assgin_first_frame_decides_witness :
    ScopeStack.assgin [[], [("c", Value.int 0, DeclType.immutable)]] "c"
        (Value.int 9) = .err "cannot mutate a immutable item c"
    ∧ (ScopeStack.assgin [[], [("y", Value.int 1, DeclType.mutable)]] "y"
          (Value.int 9)
        = .ok [[], [("y", Value.int 9, DeclType.mutable),
            ("y", Value.int 1, DeclType.mutable)]]
      ∧ ScopeStack.get [[], [("y", Value.int 9, DeclType.mutable),
          ("y", Value.int 1, DeclType.mutable)]] "y" = some (Value.int 9))
    ∧ ScopeStack.assgin [[]] "z" (Value.int 1) = .err "z is not defined" := by
  refine ⟨?_, ?_, ?_⟩
  · exact (assgin_first_frame_decides [[]] [("c", Value.int 0, DeclType.immutable)]
      [] "c" (Value.int 9) (by intro f hf; rw [List.mem_singleton] at hf; subst hf; rfl)).1
      (Value.int 0) rfl
  · exact (assgin_first_frame_decides [[]] [("y", Value.int 1, DeclType.mutable)]
      [] "y" (Value.int 9) (by intro f hf; rw [List.mem_singleton] at hf; subst hf; rfl)).2.1
      (Value.int 1) rfl
  · exact (assgin_first_frame_decides [] [] [] "z" (Value.int 1)
      (by intro f hf; cases hf)).2.2 [[]]
      (by intro f hf; rw [List.mem_singleton] at hf; subst hf; rfl)

/-- C3. The Call arm of the evaluator in src/runtime/eval/expression.rs looks
the callee up with .expect, so a Call whose callee name is not bound in the
environment aborts the process (embedded as Res.panic) instead of returning a
typed, recoverable error result: evaluated in the empty environment, the call
f() panics with the expect message. -/
theorem evalExpressionOld_unbound_callee_panics :
    evalExpressionOld noBuiltins 1 [] (.call "f" [])
      = .panic "f function is not defined" := rfl

/-- C2 counterexample. The export table of eval_module is a BTreeMap, ordered
by key: a module body declaring b and then a yields the export list with a
first, which is not the source (insertion) order of the declarations. -/
theorem evalModule_not_insertion_order :
    evalModule noBuiltins 10 [[]] [] () "m"
        [.letStatement "b" (.literal (.int 1)),
         .letStatement "a" (.literal (.int 2))]
      = .ok ([("a", Value.int 2), ("b", Value.int 1)], [[]])
    ∧ ([("a", Value.int 2), ("b", Value.int 1)] : List (String × Value))
      ≠ [("b", Value.int 1), ("a", Value.int 2)] := by
  refine ⟨rfl, ?_⟩
  intro h
  have h2 : ("a", Value.int 2) = ("b", Value.int 1) := by
    injection h
  have h3 : ("a" : String) = "b" := congrArg Prod.fst h2
  exact absurd h3 (by decide)

theorem strLtB_irrefl (a : List Char) : strLtB a a = false := by
  induction a with
  | nil => rfl
  | cons x xs ih => simp [strLtB, ih]

theorem strLt_irrefl (a : String) : strLt a a = false := strLtB_irrefl a.data

theorem strLtB_cons_iff (x y : Char) (xs ys : List Char) :
    strLtB (x :: xs) (y :: ys) = true ↔
      (x.toNat < y.toNat ∨ (x.toNat = y.toNat ∧ strLtB xs ys = true)) := by
  simp only [strLtB]
  by_cases h1 : x.toNat < y.toNat
  · simp [h1]
  · by_cases h2 : y.toNat < x.toNat
    · simp [h1, h2]; omega
    · have h3 : x.toNat = y.toNat := by omega
      simp [h1, h2, h3]

theorem strLtB_trans (a : List Char) :
    ∀ b c, strLtB a b = true → strLtB b c = true → strLtB a c = true := by
  induction a with
  | nil =>
    intro b c _ hbc
    cases c with
    | nil => cases b <;> simp [strLtB] at hbc
    | cons z zs => simp [strLtB]
  | cons x xs ih =>
    intro b c hab hbc
    cases b with
    | nil => simp [strLtB] at hab
    | cons y ys =>
      cases c with
      | nil => simp [strLtB] at hbc
      | cons z zs =>
        rw [strLtB_cons_iff] at hab hbc ⊢
        rcases hab with h | ⟨he, hs⟩ <;> rcases hbc with h2 | ⟨he2, hs2⟩
        · exact Or.inl (by omega)
        · exact Or.inl (by omega)
        · exact Or.inl (by omega)
        · exact Or.inr ⟨by omega, ih ys zs hs hs2⟩

theorem strLt_trans (a b c : String) (h1 : strLt a b = true)
    (h2 : strLt b c = true) : strLt a c = true :=
  strLtB_trans a.data b.data c.data h1 h2

theorem strLtB_total (a : List Char) :
    ∀ b, strLtB a b = false → a ≠ b → strLtB b a = true := by
  induction a with
  | nil =>
    intro b hab hne
    cases b with
    | nil => exact absurd rfl hne
    | cons z zs => simp [strLtB] at hab
  | cons x xs ih =>
    intro b hab hne
    cases b with
    | nil => simp [strLtB]
    | cons y ys =>
      have hab2 : ¬ (x.toNat < y.toNat ∨ (x.toNat = y.toNat ∧ strLtB xs ys = true)) := by
        rw [← strLtB_cons_iff]
        simp [hab]
      push_neg at hab2
      rw [strLtB_cons_iff]
      by_cases h1 : y.toNat < x.toNat
      · exact Or.inl h1
      · have hxy : x.toNat = y.toNat := by
          have := hab2.1
          omega
        have hchar : x = y := Char.ext (UInt32.ext hxy)
        refine Or.inr ⟨hxy.symm, ?_⟩
        refine ih ys (Bool.eq_false_iff.mpr (hab2.2 hxy)) ?_
        intro h
        exact hne (by rw [hchar, h])

theorem strLt_total (a b : String) (h1 : strLt a b = false) (h2 : a ≠ b) :
    strLt b a = true := by
  refine strLtB_total a.data b.data h1 ?_
  intro h
  apply h2
  cases a; cases b; exact congrArg String.mk h

theorem mem_btreeInsert (m : List (String × Value)) (k : String) (v : Value) :
    ∀ a ∈ btreeInsert m k v, a = (k, v) ∨ a ∈ m := by
  induction m with
  | nil =>
    intro a ha
    simp [btreeInsert] at ha
    exact Or.inl ha
  | cons p rest ih =>
    obtain ⟨k1, v1⟩ := p
    intro a ha
    simp only [btreeInsert] at ha
    split at ha
    · rcases List.mem_cons.mp ha with h | h
      · exact Or.inl h
      · exact Or.inr h
    · split at ha
      · rcases List.mem_cons.mp ha with h | h
        · exact Or.inl h
        · exact Or.inr (List.mem_cons_of_mem _ h)
      · rcases List.mem_cons.mp ha with h | h
        · exact Or.inr (by rw [h]; exact List.mem_cons_self _ _)
        · rcases ih a h with h3 | h3
          · exact Or.inl h3
          · exact Or.inr (List.mem_cons_of_mem _ h3)

theorem btreeInsert_sorted (m : List (String × Value)) (k : String) (v : Value)
    (hm : m.Pairwise (fun a b => strLt a.1 b.1 = true)) :
    (btreeInsert m k v).Pairwise (fun a b => strLt a.1 b.1 = true) := by
  induction m with
  | nil => simp [btreeInsert]
  | cons p rest ih =>
    obtain ⟨k1, v1⟩ := p
    rw [List.pairwise_cons] at hm
    obtain ⟨hhead, hrest⟩ := hm
    simp only [btreeInsert]
    split
    next h1 =>
      rw [List.pairwise_cons]
      refine ⟨?_, ?_⟩
      · intro b hb
        rcases List.mem_cons.mp hb with h | h
        · rw [h]; exact h1
        · exact strLt_trans k k1 b.1 h1 (hhead b h)
      · rw [List.pairwise_cons]
        exact ⟨hhead, hrest⟩
    next h1 =>
      split
      next h2 =>
        subst h2
        rw [List.pairwise_cons]
        exact ⟨fun b hb => hhead b hb, hrest⟩
      next h2 =>
        rw [List.pairwise_cons]
        refine ⟨?_, ih hrest⟩
        intro b hb
        rcases mem_btreeInsert rest k v b hb with h | h
        · rw [h]
          exact strLt_total k k1 (Bool.eq_false_iff.mpr h1) h2
        · exact hhead b h

theorem evalModuleBody_sorted (B : BuiltinImpl) (modules : List Export)
    (prototypes : Prototypes) :
    ∀ fuel innerScope exports statements exps st2,
      evalModuleBody B fuel innerScope exports statements modules prototypes
        = .ok (exps, st2) →
      exports.Pairwise (fun a b => strLt a.1 b.1 = true) →
      exps.Pairwise (fun a b => strLt a.1 b.1 = true) := by
  intro fuel
  induction fuel with
  | zero =>
    intro innerScope exports statements exps st2 h _
    simp [evalModuleBody] at h
  | succ f ih =>
    intro innerScope exports statements exps st2 h hs
    cases statements with
    | nil =>
      simp [evalModuleBody] at h
      rw [← h.1]
      exact hs
    | cons stmt rest =>
      cases stmt with
      | constStatement n expr =>
        simp only [evalModuleBody] at h
        cases hE : evalExpression B f innerScope expr modules prototypes with
        | ok pr =>
          rw [hE] at h
          obtain ⟨value, s⟩ := pr
          simp at h
          exact ih s _ rest exps st2 h (btreeInsert_sorted _ _ _ hs)
        | err m => rw [hE] at h; simp at h
        | panic m => rw [hE] at h; simp at h
        | fuel => rw [hE] at h; simp at h
      | letStatement n expr =>
        simp only [evalModuleBody] at h
        cases hE : evalExpression B f innerScope expr modules prototypes with
        | ok pr =>
          rw [hE] at h
          obtain ⟨value, s⟩ := pr
          simp at h
          exact ih s _ rest exps st2 h (btreeInsert_sorted _ _ _ hs)
        | err m => rw [hE] at h; simp at h
        | panic m => rw [hE] at h; simp at h
        | fuel => rw [hE] at h; simp at h
      | fnStatement n args block =>
        simp only [evalModuleBody] at h
        exact ih innerScope _ rest exps st2 h (btreeInsert_sorted _ _ _ hs)
      | moduleStatement n2 statements2 =>
        simp only [evalModuleBody] at h
        cases hE : evalModule B f innerScope modules prototypes n2 statements2 with
        | ok pr =>
          rw [hE] at h
          obtain ⟨exports2, s⟩ := pr
          simp at h
          exact ih s _ rest exps st2 h (btreeInsert_sorted _ _ _ hs)
        | err m => rw [hE] at h; simp at h
        | panic m => rw [hE] at h; simp at h
        | fuel => rw [hE] at h; simp at h
      | expressionStatement e => simp [evalModuleBody] at h
      | importStatement args items => simp [evalModuleBody] at h
      | assignmentStatement n rhs => simp [evalModuleBody] at h
      | ifStatement branchs elseBlock => simp [evalModuleBody] at h
      | returnStatement e => simp [evalModuleBody] at h
      | forStatement lhs iter block => simp [evalModuleBody] at h
      | breakStatement => simp [evalModuleBody] at h
      | continueStatement => simp [evalModuleBody] at h
      | whileStatement cond block => simp [evalModuleBody] at h

/-- C2 (amended). For every module body, evaluating the module accumulates its
const, let, function and nested module declarations into an export table that
is a BTreeMap: its entries appear in ascending (lexicographic) key order, not
in the source (insertion) order of the declarations. -/
theorem evalModule_exports_sorted (B : BuiltinImpl) (fuel : Nat)
    (scopes : ScopeStack) (modules : List Export) (prototypes : Prototypes)
    (name : String) (statements : List Statement)
    (exps : List (String × Value)) (st2 : ScopeStack)
    (h : evalModule B fuel scopes modules prototypes name statements
      = .ok (exps, st2)) :
    exps.Pairwise (fun a b => strLt a.1 b.1 = true) := by
  cases fuel with
  | zero => simp [evalModule] at h
  | succ f =>
    simp only [evalModule] at h
    cases hB : evalModuleBody B f (ScopeStack.newFromPush scopes []) [] statements
        modules prototypes with
    | ok pr =>
      rw [hB] at h
      obtain ⟨exports, inner⟩ := pr
      simp at h
      cases hD : ScopeStack.declare inner name (.module exports) .immutable with
      | ok inner2 =>
        rw [hD] at h
        simp at h
        rw [← h.1]
        exact evalModuleBody_sorted B modules prototypes f _ [] statements exports
          inner hB (by simp)
      | err m => rw [hD] at h; simp at h
      | panic m => rw [hD] at h; simp at h
      | fuel => rw [hD] at h; simp at h
    | err m => rw [hB] at h; simp at h
    | panic m => rw [hB] at h; simp at h
    | fuel => rw [hB] at h; simp at h

/-- Witness for the amended C2 at a concrete input: the b-then-a module body
yields a key-sorted export table. -/
theorem evalModule_exports_sorted_witness :
    ([("a", Value.int 2), ("b", Value.int 1)] : List (String × Value)).Pairwise
      (fun a b => strLt a.1 b.1 = true) :=
  evalModule_exports_sorted noBuiltins 10 [[]] [] () "m"
    [.letStatement "b" (.literal (.int 1)), .letStatement "a" (.literal (.int 2))]
    [("a", Value.int 2), ("b", Value.int 1)] [[]] rfl

/-- C5. For every for statement: a non-List iterable value is the type error;
a List dispatches to the element loop; per element the loop runs the body as a
block inside a pushed child frame binding the loop name Mutable to the
element, and then a Break escape ends the whole loop with Escape::None
(independently of the remaining elements, which are never evaluated), a
Return escape ends the loop immediately propagating the value, and a
None/Continue escape moves to the next element. -/
theorem forStatement_semantics (B : BuiltinImpl) (fuel : Nat)
    (scopes s s2 : ScopeStack) (lhs : String) (iter : Expression)
    (block : List Statement) (modules : List Export) (prototypes : Prototypes) :
    (∀ v, evalExpression B fuel scopes iter modules prototypes = .ok (v, s) →
      (∀ items, v ≠ .list items) →
      evalStatement B (fuel + 1) scopes (.forStatement lhs iter block) modules
          prototypes
        = .err "iterator most be a list")
    ∧ (∀ values,
        evalExpression B fuel scopes iter modules prototypes = .ok (.list values, s) →
        evalStatement B (fuel + 1) scopes (.forStatement lhs iter block) modules
            prototypes
          = evalFor B fuel s lhs values block modules prototypes)
    ∧ (∀ x rest e,
        evalStatements B fuel ([(lhs, x, DeclType.mutable)] :: s) block modules
            prototypes
          = .ok (e, s2) →
        (e = .brk →
          evalFor B (fuel + 1) s lhs (x :: rest) block modules prototypes
            = .ok (.none, s2.tail))
        ∧ (∀ rv, e = .ret rv →
          evalFor B (fuel + 1) s lhs (x :: rest) block modules prototypes
            = .ok (.ret rv, s2.tail))
        ∧ ((e = .none ∨ e = .cont) →
          evalFor B (fuel + 1) s lhs (x :: rest) block modules prototypes
            = evalFor B fuel s2.tail lhs rest block modules prototypes)) := by
  refine ⟨?_, ?_, ?_⟩
  · intro v hv hnl
    cases v <;> first
      | exact absurd rfl (hnl _)
      | simp [evalStatement, hv]
  · intro values hv
    simp [evalStatement, hv]
  · intro x rest e hb
    have hd : ScopeStack.declare (ScopeStack.newFromPush s []) lhs x .mutable
        = .ok ([(lhs, x, DeclType.mutable)] :: s) := rfl
    refine ⟨?_, ?_, ?_⟩
    · intro he
      subst he
      simp [evalFor, hd, hb]
    · intro rv he
      subst he
      simp [evalFor, hd, hb]
    · intro he
      rcases he with he | he <;> subst he <;> simp [evalFor, hd, hb]

/-- Witness for C5 at concrete inputs: iterating a non-list is the type error,
and a body that breaks at the first element of [1, 2] ends the loop with
Escape::None without evaluating the second element. -/
theorem forStatement_semantics_witness :
    evalStatement noBuiltins 11 [[]] (.forStatement "x" (.literal (.int 1)) [])
        [] ()
      = .err "iterator most be a list"
    ∧ evalFor noBuiltins 11 [[]] "x" [Value.int 1, Value.int 2]
        [.breakStatement] [] ()
      = .ok (.none, [[]]) := by
  constructor
  · exact (forStatement_semantics noBuiltins 10 [[]] [[]] [[]] "x"
      (.literal (.int 1)) [] [] ()).1 (Value.int 1) rfl (fun items h => by cases h)
  · exact ((forStatement_semantics noBuiltins 10 [[]] [[]]
      [[("x", Value.int 1, DeclType.mutable)], []] "x" (.literal (.int 1))
      [.breakStatement] [] ()).2.2 (Value.int 1) [Value.int 2] Escape.brk rfl).1 rfl

/-- Binding distinct fresh parameters into the frame pushed for a call always
succeeds, makes each parameter look up to its argument value with the Mutable
tag, and touches no other name. -/
theorem bindParams_fresh (s : ScopeStack) (fr : Scope)
    (pvs : List (String × Value)) (hnd : (pvs.map Prod.fst).Nodup)
    (hfresh : ∀ pv ∈ pvs, scopeGet fr pv.1 = none) :
    ∃ fr2, bindParams (fr :: s) pvs = .ok (fr2 :: s)
      ∧ (∀ pv ∈ pvs, scopeGet fr2 pv.1 = some (pv.2, DeclType.mutable))
      ∧ (∀ k, k ∉ pvs.map Prod.fst → scopeGet fr2 k = scopeGet fr k) := by
  induction pvs generalizing fr with
  | nil => exact ⟨fr, rfl, by simp, fun k _ => rfl⟩
  | cons pv rest ih =>
    obtain ⟨p, v⟩ := pv
    have hp : scopeGet fr p = none := hfresh (p, v) (List.mem_cons_self _ _)
    have hdecl : ScopeStack.declare (fr :: s) p v .mutable
        = .ok (scopeInsert fr p v .mutable :: s) := by
      simp [ScopeStack.declare, hp]
    rw [List.map_cons, List.nodup_cons] at hnd
    obtain ⟨hpn, hnd2⟩ := hnd
    have hfresh2 : ∀ q ∈ rest, scopeGet (scopeInsert fr p v .mutable) q.1 = none := by
      intro q hq
      have hqp : p ≠ q.1 := by
        intro hcontra
        have hmap : q.1 ∈ rest.map Prod.fst := List.mem_map_of_mem Prod.fst hq
        rw [← hcontra] at hmap
        exact hpn hmap
      rw [scopeGet_insert_ne _ _ _ _ _ hqp]
      exact hfresh q (List.mem_cons_of_mem _ hq)
    obtain ⟨fr2, hbp, hmem, hpres⟩ := ih (scopeInsert fr p v .mutable) hnd2 hfresh2
    refine ⟨fr2, ?_, ?_, ?_⟩
    · simp [bindParams, hdecl, hbp]
    · intro q hq
      rcases List.mem_cons.mp hq with h | h
      · rw [h]
        rw [hpres p hpn]
        exact scopeGet_insert_self fr p v .mutable
      · exact hmem q h
    · intro k hk
      have hk2 : k ∉ rest.map Prod.fst := fun h =>
        hk (List.mem_cons_of_mem _ h)
      have hkp : p ≠ k := fun h => hk (h ▸ List.mem_cons_self _ _)
      rw [hpres k hk2, scopeGet_insert_ne _ _ _ _ _ hkp]

/-- C1. For every Call expression whose callee name resolves to a Func value
(arguments evaluated left to right by evalArgs): an argument count differing
from the declared parameter count is the arity-mismatch error, detected before
any parameter is bound; on a matching count the parameters are bound to the
corresponding argument values in a fresh child frame (each visible there as
Mutable) and the function body runs as a block, a Return(v) escape yielding v,
a None escape yielding the unit-equivalent default, and a Break or Continue
escape being the control-flow-outside-loop error. -/
theorem call_func_dispatch (B : BuiltinImpl) (fuel : Nat) (scopes s : ScopeStack)
    (name : String) (args : List Expression) (params : List String)
    (block : List Statement) (values : List Value) (modules : List Export)
    (prototypes : Prototypes)
    (hlook : ScopeStack.get scopes name = some (.func params block))
    (hargs : evalArgs B fuel scopes args modules prototypes = .ok (values, s)) :
    (values.length ≠ params.length →
      evalExpression B (fuel + 1) scopes (.call name args) modules prototypes
        = .err ("expected " ++ toString params.length ++ " arguments but got "
            ++ toString values.length))
    ∧ (values.length = params.length → params.Nodup →
      ∃ fr, bindParams (ScopeStack.newFromPush s []) (params.zip values)
          = .ok (fr :: s)
        ∧ (∀ pv ∈ params.zip values, scopeGet fr pv.1 = some (pv.2, DeclType.mutable))
        ∧ (∀ e s2,
            evalStatements B fuel (fr :: s) block modules prototypes = .ok (e, s2) →
            evalExpression B (fuel + 1) scopes (.call name args) modules prototypes
              = match e with
                | .ret v => .ok (v, s2.tail)
                | .none => .ok (.null, s2.tail)
                | .brk => .err "break outside of loop"
                | .cont => .err "continue outside of loop")) := by
  constructor
  · intro hne
    simp [evalExpression, hlook, hargs, hne]
  · intro hlen hnodup
    have hmapfst : (params.zip values).map Prod.fst = params :=
      List.map_fst_zip params values (le_of_eq hlen.symm)
    have hnd : ((params.zip values).map Prod.fst).Nodup := by
      rw [hmapfst]; exact hnodup
    have hfresh : ∀ pv ∈ params.zip values, scopeGet ([] : Scope) pv.1 = none :=
      fun _ _ => rfl
    obtain ⟨fr, hbp, hmem, hpres⟩ := bindParams_fresh s [] (params.zip values) hnd hfresh
    refine ⟨fr, hbp, hmem, ?_⟩
    intro e s2 hbody
    cases e <;>
      simp [evalExpression, hlook, hargs, hlen, ScopeStack.newFromPush, hbp, hbody]

/-- Witness for C1 at concrete inputs: calling f(a) declared with one
parameter with zero arguments is the arity error, and calling it with 7 binds
a to 7 in the child frame and returns 7. -/
theorem call_func_dispatch_witness :
    evalExpression noBuiltins 11
        [[("f", Value.func ["a"] [.returnStatement (.identifier "a")],
          DeclType.immutable)]]
        (.call "f" []) [] ()
      = .err "expected 1 arguments but got 0"
    ∧ evalExpression noBuiltins 11
        [[("f", Value.func ["a"] [.returnStatement (.identifier "a")],
          DeclType.immutable)]]
        (.call "f" [.literal (.int 7)]) [] ()
      = .ok (.int 7,
          [[("f", Value.func ["a"] [.returnStatement (.identifier "a")],
            DeclType.immutable)]]) := by
  constructor
  · exact (call_func_dispatch noBuiltins 10
      [[("f", Value.func ["a"] [.returnStatement (.identifier "a")],
        DeclType.immutable)]]
      [[("f", Value.func ["a"] [.returnStatement (.identifier "a")],
        DeclType.immutable)]]
      "f" [] ["a"] [.returnStatement (.identifier "a")] [] [] ()
      rfl rfl).1 (by decide)
  · obtain ⟨fr, hbp, hmem, hrun⟩ := (call_func_dispatch noBuiltins 10
      [[("f", Value.func ["a"] [.returnStatement (.identifier "a")],
        DeclType.immutable)]]
      [[("f", Value.func ["a"] [.returnStatement (.identifier "a")],
        DeclType.immutable)]]
      "f" [.literal (.int 7)] ["a"] [.returnStatement (.identifier "a")]
      [Value.int 7] [] () rfl rfl).2 rfl (by decide)
    have hfr : fr = [("a", Value.int 7, DeclType.mutable)] := by
      have h2 : bindParams
          (ScopeStack.newFromPush
            [[("f", Value.func ["a"] [.returnStatement (.identifier "a")],
              DeclType.immutable)]] [])
          (["a"].zip [Value.int 7])
          = .ok ([("a", Value.int 7, DeclType.mutable)] ::
              [[("f", Value.func ["a"] [.returnStatement (.identifier "a")],
                DeclType.immutable)]]) := rfl
      have h3 := h2.symm.trans hbp
      simp at h3
      exact h3.symm
    subst hfr
    exact hrun (Escape.ret (Value.int 7))
      ([("a", Value.int 7, DeclType.mutable)] ::
        [[("f", Value.func ["a"] [.returnStatement (.identifier "a")],
          DeclType.immutable)]]) rfl

/-- bindAllowList, translated from the source, equals installing exactly the
spec-side allowListBindings into the topmost frame in order. -/
theorem bindAllowList_eq_frameAfter (exports : List Export) (its : List String) :
    ∀ (top : Scope) (rest : List Scope),
      bindAllowList (top :: rest) exports its
        = .ok (frameAfter top (allowListBindings exports its) :: rest) := by
  induction exports with
  | nil => intro top rest; rfl
  | cons e r ih =>
    intro top rest
    cases e with
    | module n1 exps =>
      simp [bindAllowList, allowListBindings, ScopeStack.declareBuiltin, frameAfter, ih]
    | item n v =>
      simp only [bindAllowList, allowListBindings]
      split
      next hc =>
        rw [show ScopeStack.declareBuiltin (top :: rest) n v .immutable
          = .ok (scopeInsert top n v .immutable :: rest) from rfl]
        simp only [Res.bind_ok]
        rw [ih]
        rfl
      next hc =>
        rw [ih]

theorem mem_collectItems (exports : List Export) :
    ∀ k v, ((k, v) ∈ collectItems exports ↔ Export.item k v ∈ exports) := by
  induction exports with
  | nil => intro k v; simp [collectItems]
  | cons e r ih =>
    intro k v
    cases e with
    | item n w =>
      simp only [collectItems, List.mem_cons]
      constructor
      · intro h
        rcases h with h | h
        · left
          rw [Prod.mk.injEq] at h
          rw [h.1, h.2]
        · exact Or.inr ((ih k v).mp h)
      · intro h
        rcases h with h | h
        · left
          injection h with h1 h2
          rw [h1, h2]
        · exact Or.inr ((ih k v).mpr h)
    | module n exps =>
      simp only [collectItems, List.mem_cons]
      constructor
      · intro h
        exact Or.inr ((ih k v).mp h)
      · intro h
        rcases h with h | h
        · exact absurd h (by intro hcon; cases hcon)
        · exact (ih k v).mpr h

theorem mem_allowListBindings (exports : List Export) (its : List String) :
    ∀ k v, ((k, v) ∈ allowListBindings exports its ↔
      ((∃ e2, Export.module k e2 ∈ exports ∧ v = .object (collectItems e2))
        ∨ (Export.item k v ∈ exports ∧ its.contains k = true))) := by
  induction exports with
  | nil => intro k v; simp [allowListBindings]
  | cons e r ih =>
    intro k v
    cases e with
    | module n1 exps =>
      simp only [allowListBindings, List.mem_cons]
      constructor
      · intro h
        rcases h with h | h
        · rw [Prod.mk.injEq] at h
          exact Or.inl ⟨exps, Or.inl (by rw [h.1]), h.2⟩
        · rcases (ih k v).mp h with ⟨e2, hm, hv⟩ | ⟨hm, hc⟩
          · exact Or.inl ⟨e2, Or.inr hm, hv⟩
          · exact Or.inr ⟨Or.inr hm, hc⟩
      · intro h
        rcases h with ⟨e2, hm, hv⟩ | ⟨hm, hc⟩
        · rcases hm with hm | hm
          · left
            injection hm with h1 h2
            rw [h1, hv, h2]
          · exact Or.inr ((ih k v).mpr (Or.inl ⟨e2, hm, hv⟩))
        · rcases hm with hm | hm
          · exact absurd hm (by intro hcon; cases hcon)
          · exact Or.inr ((ih k v).mpr (Or.inr ⟨hm, hc⟩))
    | item n w =>
      by_cases hc : its.contains n = true
      · simp only [allowListBindings, hc, if_pos, List.mem_cons]
        constructor
        · intro h
          rcases h with h | h
          · rw [Prod.mk.injEq] at h
            exact Or.inr ⟨Or.inl (by rw [h.1, h.2]), by rw [h.1]; exact hc⟩
          · rcases (ih k v).mp h with ⟨e2, hm, hv⟩ | ⟨hm, hc2⟩
            · exact Or.inl ⟨e2, Or.inr hm, hv⟩
            · exact Or.inr ⟨Or.inr hm, hc2⟩
        · intro h
          rcases h with ⟨e2, hm, hv⟩ | ⟨hm, hc2⟩
          · rcases hm with hm | hm
            · exact absurd hm (by intro hcon; cases hcon)
            · exact Or.inr ((ih k v).mpr (Or.inl ⟨e2, hm, hv⟩))
          · rcases hm with hm | hm
            · left
              injection hm with h1 h2
              rw [h1, h2]
            · exact Or.inr ((ih k v).mpr (Or.inr ⟨hm, hc2⟩))
      · simp only [allowListBindings, hc, if_neg, Bool.false_eq_true,
          not_false_eq_true, List.mem_cons]
        constructor
        · intro h
          rcases (ih k v).mp h with ⟨e2, hm, hv⟩ | ⟨hm, hc2⟩
          · exact Or.inl ⟨e2, Or.inr hm, hv⟩
          · exact Or.inr ⟨Or.inr hm, hc2⟩
        · intro h
          rcases h with ⟨e2, hm, hv⟩ | ⟨hm, hc2⟩
          · rcases hm with hm | hm
            · exact absurd hm (by intro hcon; cases hcon)
            · exact (ih k v).mpr (Or.inl ⟨e2, hm, hv⟩)
          · rcases hm with hm | hm
            · injection hm with h1 h2
              rw [h1] at hc2
              exact absurd hc2 hc
            · exact (ih k v).mpr (Or.inr ⟨hm, hc2⟩)

theorem scopeGet_frameAfter_not_mem (bs : List (String × Value)) :
    ∀ (top : Scope) (k : String), k ∉ bs.map Prod.fst →
      scopeGet (frameAfter top bs) k = scopeGet top k := by
  induction bs with
  | nil => intro top k _; rfl
  | cons b r ih =>
    obtain ⟨n, v⟩ := b
    intro top k hk
    have hk2 : k ∉ r.map Prod.fst := fun h => hk (List.mem_cons_of_mem _ h)
    have hkn : n ≠ k := by
      intro h
      exact hk (by rw [← h]; exact List.mem_cons_self _ _)
    simp only [frameAfter]
    rw [ih (scopeInsert top n v .immutable) k hk2,
      scopeGet_insert_ne _ _ _ _ _ hkn]

/-- C4. For an import whose current segment resolves to a Module: with more
segments remaining the walk descends into its exports; when it is the final
segment and there is no allow-list, a single Object holding exactly the
immediate Item children of the module (as key/value pairs) is bound under the
final segment name; when there is an allow-list, the bindings installed are
exactly: for every nested sub-module an Object flattening that sub-module
items bound under the sub-module name, and each direct Item whose name is in
the allow-list bound individually under its own name. -/
theorem import_module_resolution (modules : List Export) (a nm : String)
    (exps : List Export) (top : Scope) (rest : List Scope)
    (items : Option (List String)) (its : List String)
    (hfind : findExport modules a = some (.module nm exps)) :
    (∀ b restArgs,
      applyImports (top :: rest) modules (a :: b :: restArgs) items
        = applyImports (top :: rest) exps (b :: restArgs) items)
    ∧ (applyImports (top :: rest) modules [a] none
        = .ok (scopeInsert top a (.object (collectItems exps)) .immutable :: rest)
      ∧ ∀ k v, ((k, v) ∈ collectItems exps ↔ Export.item k v ∈ exps))
    ∧ (applyImports (top :: rest) modules [a] (some its)
        = .ok (frameAfter top (allowListBindings exps its) :: rest)
      ∧ ∀ k v, ((k, v) ∈ allowListBindings exps its ↔
          ((∃ e2, Export.module k e2 ∈ exps ∧ v = .object (collectItems e2))
            ∨ (Export.item k v ∈ exps ∧ its.contains k = true)))) := by
  refine ⟨?_, ⟨?_, mem_collectItems exps⟩, ⟨?_, mem_allowListBindings exps its⟩⟩
  · intro b restArgs
    simp [applyImports, hfind]
  · simp [applyImports, hfind, ScopeStack.declareBuiltin]
  · simp only [applyImports, hfind]
    exact bindAllowList_eq_frameAfter exps its top rest

/-- Witness for C4 on a concrete module m with item x, sub-module sub holding
y, and item z: descent into sub, whole-module Object import, and allow-list
allow-list selection of x (sub flattened, z skipped). -/
theorem import_module_resolution_witness :
    applyImports [[]]
        [Export.module "m" [Export.item "x" (Value.int 1),
          Export.module "sub" [Export.item "y" (Value.int 2)],
          Export.item "z" (Value.int 3)]]
        ["m", "sub"] none
      = applyImports [[]]
          [Export.item "x" (Value.int 1),
            Export.module "sub" [Export.item "y" (Value.int 2)],
            Export.item "z" (Value.int 3)]
          ["sub"] none
    ∧ applyImports [[]]
        [Export.module "m" [Export.item "x" (Value.int 1),
          Export.module "sub" [Export.item "y" (Value.int 2)],
          Export.item "z" (Value.int 3)]]
        ["m"] none
      = .ok [[("m",
          Value.object [("x", Value.int 1), ("z", Value.int 3)],
          DeclType.immutable)]]
    ∧ applyImports [[]]
        [Export.module "m" [Export.item "x" (Value.int 1),
          Export.module "sub" [Export.item "y" (Value.int 2)],
          Export.item "z" (Value.int 3)]]
        ["m"] (some ["x"])
      = .ok [[("sub", Value.object [("y", Value.int 2)], DeclType.immutable),
          ("x", Value.int 1, DeclType.immutable)]] := by
  refine ⟨?_, ?_, ?_⟩
  · exact (import_module_resolution
      [Export.module "m" [Export.item "x" (Value.int 1),
        Export.module "sub" [Export.item "y" (Value.int 2)],
        Export.item "z" (Value.int 3)]]
      "m" "m"
      [Export.item "x" (Value.int 1),
        Export.module "sub" [Export.item "y" (Value.int 2)],
        Export.item "z" (Value.int 3)]
      [] [] none ["x"] rfl).1 "sub" []
  · exact (import_module_resolution
      [Export.module "m" [Export.item "x" (Value.int 1),
        Export.module "sub" [Export.item "y" (Value.int 2)],
        Export.item "z" (Value.int 3)]]
      "m" "m"
      [Export.item "x" (Value.int 1),
        Export.module "sub" [Export.item "y" (Value.int 2)],
        Export.item "z" (Value.int 3)]
      [] [] none ["x"] rfl).2.1.1
  · exact (import_module_resolution
      [Export.module "m" [Export.item "x" (Value.int 1),
        Export.module "sub" [Export.item "y" (Value.int 2)],
        Export.item "z" (Value.int 3)]]
      "m" "m"
      [Export.item "x" (Value.int 1),
        Export.module "sub" [Export.item "y" (Value.int 2)],
        Export.item "z" (Value.int 3)]
      [] [] none ["x"] rfl).2.2.1

/-- C10. For an import whose final segment resolves to a Module and that
carries an allow-list: the import succeeds whatever the allow-list holds; an
allow-list entry x matching no direct Item (and no sub-module) of the module
is silently ignored, no binding being created for it and no not-found error
reported; and a direct Item not named in the allow-list is skipped without
error, leaving its name unbound. -/
theorem import_allowlist_unmatched_silent (modules : List Export)
    (a nm x : String) (exps : List Export) (top : Scope) (rest : List Scope)
    (its : List String)
    (hfind : findExport modules a = some (.module nm exps))
    (hx : x ∈ its)
    (hxitem : ∀ v, Export.item x v ∉ exps)
    (hxmod : ∀ e2, Export.module x e2 ∉ exps) :
    ∃ st2, applyImports (top :: rest) modules [a] (some its) = .ok st2
      ∧ ScopeStack.get st2 x = ScopeStack.get (top :: rest) x
      ∧ ∀ n v, Export.item n v ∈ exps → its.contains n = false →
          (∀ e2, Export.module n e2 ∉ exps) →
          ScopeStack.get st2 n = ScopeStack.get (top :: rest) n := by
  refine ⟨frameAfter top (allowListBindings exps its) :: rest, ?_, ?_, ?_⟩
  · simp only [applyImports, hfind]
    exact bindAllowList_eq_frameAfter exps its top rest
  · have hnotin : x ∉ (allowListBindings exps its).map Prod.fst := by
      intro hmem
      rw [List.mem_map] at hmem
      obtain ⟨⟨k, v⟩, hkv, hfst⟩ := hmem
      rw [show ((k, v) : String × Value).1 = k from rfl] at hfst
      subst hfst
      rcases (mem_allowListBindings exps its k v).mp hkv with ⟨e2, hm, _⟩ | ⟨hm, _⟩
      · exact hxmod e2 hm
      · exact hxitem v hm
    have hframe := scopeGet_frameAfter_not_mem (allowListBindings exps its) top x hnotin
    simp only [ScopeStack.get, hframe]
  · intro n v hitem hcont hmod
    have hnotin : n ∉ (allowListBindings exps its).map Prod.fst := by
      intro hmem
      rw [List.mem_map] at hmem
      obtain ⟨⟨k, w⟩, hkv, hfst⟩ := hmem
      rw [show ((k, w) : String × Value).1 = k from rfl] at hfst
      subst hfst
      rcases (mem_allowListBindings exps its k w).mp hkv with ⟨e2, hm, _⟩ | ⟨hm, hc⟩
      · exact hmod e2 hm
      · rw [hcont] at hc
        exact Bool.noConfusion hc
    have hframe := scopeGet_frameAfter_not_mem (allowListBindings exps its) top n hnotin
    simp only [ScopeStack.get, hframe]

/-- Witness for C10 on the concrete module m (item x, sub-module sub, item z)
pulled in with allow-list [nope]: the import succeeds binding only the
flattened sub-module, the unmatched entry nope creates no binding, and the
unlisted item z stays unbound. -/
theorem import_allowlist_unmatched_silent_witness :
    applyImports [[]]
        [Export.module "m" [Export.item "x" (Value.int 1),
          Export.module "sub" [Export.item "y" (Value.int 2)],
          Export.item "z" (Value.int 3)]]
        ["m"] (some ["nope"])
      = .ok [[("sub", Value.object [("y", Value.int 2)], DeclType.immutable)]]
    ∧ ScopeStack.get
        [[("sub", Value.object [("y", Value.int 2)], DeclType.immutable)]]
        "nope" = none
    ∧ ScopeStack.get
        [[("sub", Value.object [("y", Value.int 2)], DeclType.immutable)]]
        "z" = none := by
  have hxitem : ∀ v, Export.item "nope" v ∉
      [Export.item "x" (Value.int 1),
        Export.module "sub" [Export.item "y" (Value.int 2)],
        Export.item "z" (Value.int 3)] := by
    intro v h
    rcases List.mem_cons.mp h with h1 | h1
    · injection h1 with hn hv
      exact absurd hn (by decide)
    · rcases List.mem_cons.mp h1 with h2 | h2
      · exact Export.noConfusion h2
      · rcases List.mem_cons.mp h2 with h3 | h3
        · injection h3 with hn hv
          exact absurd hn (by decide)
        · cases h3
  have hxmod : ∀ e2, Export.module "nope" e2 ∉
      [Export.item "x" (Value.int 1),
        Export.module "sub" [Export.item "y" (Value.int 2)],
        Export.item "z" (Value.int 3)] := by
    intro e2 h
    rcases List.mem_cons.mp h with h1 | h1
    · exact Export.noConfusion h1
    · rcases List.mem_cons.mp h1 with h2 | h2
      · injection h2 with hn hv
        exact absurd hn (by decide)
      · rcases List.mem_cons.mp h2 with h3 | h3
        · exact Export.noConfusion h3
        · cases h3
  have hzmod : ∀ e2, Export.module "z" e2 ∉
      [Export.item "x" (Value.int 1),
        Export.module "sub" [Export.item "y" (Value.int 2)],
        Export.item "z" (Value.int 3)] := by
    intro e2 h
    rcases List.mem_cons.mp h with h1 | h1
    · exact Export.noConfusion h1
    · rcases List.mem_cons.mp h1 with h2 | h2
      · injection h2 with hn hv
        exact absurd hn (by decide)
      · rcases List.mem_cons.mp h2 with h3 | h3
        · exact Export.noConfusion h3
        · cases h3
  obtain ⟨st2, h1, h2, h3⟩ := import_allowlist_unmatched_silent
    [Export.module "m" [Export.item "x" (Value.int 1),
      Export.module "sub" [Export.item "y" (Value.int 2)],
      Export.item "z" (Value.int 3)]]
    "m" "m" "nope"
    [Export.item "x" (Value.int 1),
      Export.module "sub" [Export.item "y" (Value.int 2)],
      Export.item "z" (Value.int 3)]
    [] [] ["nope"] rfl (by decide) hxitem hxmod
  have hcalc : applyImports [[]]
      [Export.module "m" [Export.item "x" (Value.int 1),
        Export.module "sub" [Export.item "y" (Value.int 2)],
        Export.item "z" (Value.int 3)]]
      ["m"] (some ["nope"])
      = .ok [[("sub", Value.object [("y", Value.int 2)], DeclType.immutable)]] := rfl
  have hst := hcalc.symm.trans h1
  injection hst with hst2
  rw [← hst2] at h2 h3
  refine ⟨hcalc, h2, ?_⟩
  exact h3 "z" (Value.int 3)
    (List.mem_cons_of_mem _ (List.mem_cons_of_mem _ (List.mem_cons_self _ _)))
    rfl hzmod

theorem framesKeyEq_refl : ∀ s : ScopeStack, framesKeyEq s s := by
  intro s
  induction s with
  | nil => trivial
  | cons f r ih => exact ⟨fun k => rfl, ih⟩

theorem framesKeyEq_trans : ∀ {a b c : ScopeStack},
    framesKeyEq a b → framesKeyEq b c → framesKeyEq a c := by
  intro a
  induction a with
  | nil =>
    intro b c hab hbc
    cases b with
    | nil =>
      cases c with
      | nil => trivial
      | cons f3 r3 => exact hbc.elim
    | cons f2 r2 => exact hab.elim
  | cons f r ih =>
    intro b c hab hbc
    cases b with
    | nil => exact hab.elim
    | cons f2 r2 =>
      cases c with
      | nil => exact hbc.elim
      | cons f3 r3 => exact ⟨fun k => (hab.1 k).trans (hbc.1 k), ih hab.2 hbc.2⟩

theorem framesKeyEq_length : ∀ {a b : ScopeStack},
    framesKeyEq a b → a.length = b.length := by
  intro a
  induction a with
  | nil =>
    intro b h
    cases b with
    | nil => rfl
    | cons f2 r2 => exact h.elim
  | cons f r ih =>
    intro b h
    cases b with
    | nil => exact h.elim
    | cons f2 r2 => simp [ih h.2]

theorem framesKeyEq_tail : ∀ {a b : ScopeStack},
    framesKeyEq a b → framesKeyEq a.tail b.tail := by
  intro a b h
  cases a with
  | nil =>
    cases b with
    | nil => trivial
    | cons f2 r2 => exact h.elim
  | cons f r =>
    cases b with
    | nil => exact h.elim
    | cons f2 r2 => exact h.2

theorem framesKeyEq_cons_inv {f : Scope} {r b : ScopeStack}
    (h : framesKeyEq (f :: r) b) :
    ∃ f2 r2, b = f2 :: r2
      ∧ (∀ k, (scopeGet f k).isSome = (scopeGet f2 k).isSome)
      ∧ framesKeyEq r r2 := by
  cases b with
  | nil => exact h.elim
  | cons f2 r2 => exact ⟨f2, r2, rfl, h.1, h.2⟩

theorem framesKeyEq_get_isSome : ∀ {a b : ScopeStack}, framesKeyEq a b →
    ∀ x, (ScopeStack.get a x).isSome = (ScopeStack.get b x).isSome := by
  intro a
  induction a with
  | nil =>
    intro b h x
    cases b with
    | nil => rfl
    | cons f2 r2 => exact h.elim
  | cons f r ih =>
    intro b h x
    cases b with
    | nil => exact h.elim
    | cons f2 r2 =>
      obtain ⟨hf, hr⟩ := h
      simp only [ScopeStack.get]
      cases hg : scopeGet f x with
      | some vd =>
        have hx := hf x
        rw [hg] at hx
        cases hg2 : scopeGet f2 x with
        | some vd2 => rfl
        | none => rw [hg2] at hx; simp at hx
      | none =>
        have hx := hf x
        rw [hg] at hx
        cases hg2 : scopeGet f2 x with
        | some vd2 => rw [hg2] at hx; simp at hx
        | none => exact ih hr x

theorem frameKeys_insert_mem (f : Scope) (n : String) (v : Value) (t : DeclType)
    (h : (scopeGet f n).isSome = true) :
    ∀ k, (scopeGet (scopeInsert f n v t) k).isSome = (scopeGet f k).isSome := by
  intro k
  by_cases hk : n = k
  · subst hk
    rw [scopeGet_insert_self]
    simp [h]
  · rw [scopeGet_insert_ne _ _ _ _ _ hk]

theorem assgin_framesKeyEq : ∀ (s : ScopeStack) (n : String) (v : Value)
    (s2 : ScopeStack), ScopeStack.assgin s n v = .ok s2 → framesKeyEq s s2 := by
  intro s
  induction s with
  | nil => intro n v s2 h; simp [ScopeStack.assgin] at h
  | cons f r ih =>
    intro n v s2 h
    simp only [ScopeStack.assgin] at h
    split at h
    next v0 heq => simp at h
    next v0 heq =>
      injection h with h2
      rw [← h2]
      exact ⟨fun k => (frameKeys_insert_mem f n v .mutable (by rw [heq]; rfl) k).symm,
        framesKeyEq_refl r⟩
    next heq =>
      cases hr : ScopeStack.assgin r n v with
      | ok r2 =>
        rw [hr] at h
        injection h with h2
        rw [← h2]
        exact ⟨fun k => rfl, ih n v r2 hr⟩
      | err m => rw [hr] at h; simp at h
      | panic m => rw [hr] at h; simp at h
      | fuel => rw [hr] at h; simp at h

theorem declare_shape {s : ScopeStack} {n : String} {v : Value} {t : DeclType}
    {s2 : ScopeStack} (h : ScopeStack.declare s n v t = .ok s2) :
    ∃ f r, s = f :: r ∧ s2 = scopeInsert f n v t :: r := by
  cases s with
  | nil => simp [ScopeStack.declare] at h
  | cons f r =>
    simp only [ScopeStack.declare] at h
    split at h
    · simp at h
    · injection h with h2
      exact ⟨f, r, rfl, h2.symm⟩

theorem declareBuiltin_shape {s : ScopeStack} {n : String} {v : Value}
    {t : DeclType} {s2 : ScopeStack}
    (h : ScopeStack.declareBuiltin s n v t = .ok s2) :
    ∃ f r, s = f :: r ∧ s2 = scopeInsert f n v t :: r := by
  cases s with
  | nil => simp [ScopeStack.declareBuiltin] at h
  | cons f r =>
    simp only [ScopeStack.declareBuiltin] at h
    injection h with h2
    exact ⟨f, r, rfl, h2.symm⟩

theorem bindParams_shape : ∀ (pvs : List (String × Value)) (s s2 : ScopeStack),
    bindParams s pvs = .ok s2 → s2.length = s.length ∧ s2.tail = s.tail := by
  intro pvs
  induction pvs with
  | nil =>
    intro s s2 h
    injection h with h2
    rw [h2]
    exact ⟨rfl, rfl⟩
  | cons pv rest ih =>
    obtain ⟨p, v⟩ := pv
    intro s s2 h
    simp only [bindParams] at h
    cases hd : ScopeStack.declare s p v .mutable with
    | ok s3 =>
      rw [hd] at h
      simp only [Res.bind_ok] at h
      obtain ⟨f, r, hs, hs3⟩ := declare_shape hd
      obtain ⟨hlen, htail⟩ := ih s3 s2 h
      subst hs
      rw [hs3] at hlen htail
      exact ⟨by simpa using hlen, by simpa using htail⟩
    | err m => rw [hd] at h; simp at h
    | panic m => rw [hd] at h; simp at h
    | fuel => rw [hd] at h; simp at h

theorem bindAllowList_shape : ∀ (exports : List Export) (its : List String)
    (s s2 : ScopeStack), bindAllowList s exports its = .ok s2 →
    s2.length = s.length ∧ s2.tail = s.tail := by
  intro exports
  induction exports with
  | nil =>
    intro its s s2 h
    injection h with h2
    rw [h2]
    exact ⟨rfl, rfl⟩
  | cons e r ih =>
    intro its s s2 h
    cases e with
    | module n1 exps =>
      simp only [bindAllowList] at h
      cases hd : ScopeStack.declareBuiltin s n1 (.object (collectItems exps)) .immutable with
      | ok s3 =>
        rw [hd] at h
        simp only [Res.bind_ok] at h
        obtain ⟨f, rr, hs, hs3⟩ := declareBuiltin_shape hd
        obtain ⟨hlen, htail⟩ := ih its s3 s2 h
        subst hs
        rw [hs3] at hlen htail
        exact ⟨by simpa using hlen, by simpa using htail⟩
      | err m => rw [hd] at h; simp at h
      | panic m => rw [hd] at h; simp at h
      | fuel => rw [hd] at h; simp at h
    | item n v =>
      simp only [bindAllowList] at h
      split at h
      · cases hd : ScopeStack.declareBuiltin s n v .immutable with
        | ok s3 =>
          rw [hd] at h
          simp only [Res.bind_ok] at h
          obtain ⟨f, rr, hs, hs3⟩ := declareBuiltin_shape hd
          obtain ⟨hlen, htail⟩ := ih its s3 s2 h
          subst hs
          rw [hs3] at hlen htail
          exact ⟨by simpa using hlen, by simpa using htail⟩
        | err m => rw [hd] at h; simp at h
        | panic m => rw [hd] at h; simp at h
        | fuel => rw [hd] at h; simp at h
      · exact ih its s s2 h

theorem applyImports_shape : ∀ (args : List String) (s : ScopeStack)
    (modules : List Export) (items : Option (List String)) (s2 : ScopeStack),
    applyImports s modules args items = .ok s2 →
    s2.length = s.length ∧ s2.tail = s.tail := by
  intro args
  induction args with
  | nil =>
    intro s modules items s2 h
    injection h with h2
    rw [h2]
    exact ⟨rfl, rfl⟩
  | cons arg restArgs ih =>
    intro s modules items s2 h
    simp only [applyImports] at h
    split at h
    · simp at h
    · cases restArgs with
      | nil =>
        cases items with
        | some its => exact bindAllowList_shape _ its s s2 h
        | none =>
          obtain ⟨f, r, hs, hs2⟩ := declareBuiltin_shape h
          subst hs
          rw [hs2]
          exact ⟨rfl, rfl⟩
      | cons b rest2 => exact ih s _ items s2 h
    · split at h
      · simp at h
      · cases restArgs with
        | cons b rest2 => simp at h
        | nil =>
          obtain ⟨f, r, hs, hs2⟩ := declareBuiltin_shape h
          subst hs
          rw [hs2]
          exact ⟨rfl, rfl⟩

/-- The evaluator never adds a name to any frame of a scope view it is given:
declarations go only into frames it pushes itself (block frames, call frames,
module child frames) and assignment only rewrites a name already present, so
every component maps a scope stack to one with pointwise identical key sets
(at the statement level, of all frames below the topmost, since the block
frame a statement runs in may gain its declarations). -/
theorem eval_preserves_keys (B : BuiltinImpl) : ∀ fuel : Nat,
    (∀ scopes expr modules prototypes v s2,
      evalExpression B fuel scopes expr modules prototypes = .ok (v, s2) →
      framesKeyEq scopes s2)
    ∧ (∀ scopes args modules prototypes vs s2,
      evalArgs B fuel scopes args modules prototypes = .ok (vs, s2) →
      framesKeyEq scopes s2)
    ∧ (∀ scopes stmt modules prototypes e s2,
      evalStatement B fuel scopes stmt modules prototypes = .ok (e, s2) →
      s2.length = scopes.length ∧ framesKeyEq scopes.tail s2.tail)
    ∧ (∀ scopes stmts modules prototypes e s2,
      evalStatements B fuel scopes stmts modules prototypes = .ok (e, s2) →
      framesKeyEq scopes s2)
    ∧ (∀ scopes stmts modules prototypes e s2,
      evalStmtSeq B fuel scopes stmts modules prototypes = .ok (e, s2) →
      s2.length = scopes.length ∧ framesKeyEq scopes.tail s2.tail)
    ∧ (∀ scopes branchs elseB modules prototypes e s2,
      evalIfBranches B fuel scopes branchs elseB modules prototypes = .ok (e, s2) →
      framesKeyEq scopes s2)
    ∧ (∀ scopes lhs values block modules prototypes e s2,
      evalFor B fuel scopes lhs values block modules prototypes = .ok (e, s2) →
      framesKeyEq scopes s2)
    ∧ (∀ scopes cond block modules prototypes e s2,
      evalWhile B fuel scopes cond block modules prototypes = .ok (e, s2) →
      framesKeyEq scopes s2)
    ∧ (∀ scopes modules prototypes name stmts exps s2,
      evalModule B fuel scopes modules prototypes name stmts = .ok (exps, s2) →
      framesKeyEq scopes s2)
    ∧ (∀ innerScope exports stmts modules prototypes exps s2,
      evalModuleBody B fuel innerScope exports stmts modules prototypes
        = .ok (exps, s2) →
      framesKeyEq innerScope s2) := by
  intro fuel
  induction fuel with
  | zero =>
    refine ⟨?_, ?_, ?_, ?_, ?_, ?_, ?_, ?_, ?_, ?_⟩
    · intro a b c d e g h; simp [evalExpression] at h
    · intro a b c d e g h; simp [evalArgs] at h
    · intro a b c d e g h; simp [evalStatement] at h
    · intro a b c d e g h; simp [evalStatements] at h
    · intro a b c d e g h; simp [evalStmtSeq] at h
    · intro a b c d e g i h; simp [evalIfBranches] at h
    · intro a b c d e g i j h; simp [evalFor] at h
    · intro a b c d e g i h; simp [evalWhile] at h
    · intro a b c d e g i h; simp [evalModule] at h
    · intro a b c d e g i h; simp [evalModuleBody] at h
  | succ f ih =>
    obtain ⟨ihE, ihA, ihS, ihSS, ihSeq, ihIf, ihFor, ihW, ihM, ihMB⟩ := ih
    refine ⟨?_, ?_, ?_, ?_, ?_, ?_, ?_, ?_, ?_, ?_⟩
    · -- evalExpression
      intro scopes expr modules prototypes v s2 h
      cases expr with
      | literal l =>
        cases l <;>
          (simp only [evalExpression] at h; simp at h; rw [← h.2];
            exact framesKeyEq_refl scopes)
      | identifier name =>
        simp only [evalExpression] at h
        cases hg : ScopeStack.get scopes name with
        | some w => rw [hg] at h; simp at h; rw [← h.2]; exact framesKeyEq_refl scopes
        | none => rw [hg] at h; simp at h
      | call name args =>
        simp only [evalExpression] at h
        cases hg : ScopeStack.get scopes name with
        | none => rw [hg] at h; simp at h
        | some fval =>
          rw [hg] at h
          cases hA : evalArgs B f scopes args modules prototypes with
          | ok pr =>
            obtain ⟨vals, s3⟩ := pr
            rw [hA] at h
            simp only [Res.bind_ok] at h
            have hkA : framesKeyEq scopes s3 := ihA _ _ _ _ _ _ hA
            cases fval with
            | builtinFn tag =>
              cases hB : B tag vals with
              | ok w => simp [hB] at h; rw [← h.2]; exact hkA
              | error m => simp [hB] at h
            | func params block =>
              by_cases hlen : vals.length ≠ params.length
              · simp [hlen] at h
              · simp only [hlen, if_neg, not_false_eq_true, ne_eq,
                  not_not] at h
                cases hbp : bindParams (ScopeStack.newFromPush s3 [])
                    (params.zip vals) with
                | ok inner =>
                  rw [hbp] at h
                  simp only [Res.bind_ok] at h
                  have hshape := bindParams_shape _ _ _ hbp
                  obtain ⟨fi, hinner⟩ : ∃ fi, inner = fi :: s3 := by
                    cases inner with
                    | nil => simp [ScopeStack.newFromPush] at hshape
                    | cons fi r =>
                      refine ⟨fi, ?_⟩
                      have := hshape.2
                      simp [ScopeStack.newFromPush] at this
                      rw [this]
                  subst hinner
                  cases hS : evalStatements B f (fi :: s3) block modules prototypes with
                  | ok pr2 =>
                    obtain ⟨e2, inner2⟩ := pr2
                    rw [hS] at h
                    simp only [Res.bind_ok] at h
                    have hkS : framesKeyEq (fi :: s3) inner2 := ihSS _ _ _ _ _ _ hS
                    obtain ⟨g2, r2, hinner2, hfk, hrk⟩ := framesKeyEq_cons_inv hkS
                    subst hinner2
                    have hks2 : framesKeyEq scopes r2 := framesKeyEq_trans hkA hrk
                    cases e2 with
                    | ret w => simp at h; rw [← h.2]; exact hks2
                    | none => simp at h; rw [← h.2]; exact hks2
                    | brk => simp at h
                    | cont => simp at h
                  | err m => rw [hS] at h; simp at h
                  | panic m => rw [hS] at h; simp at h
                  | fuel => rw [hS] at h; simp at h
                | err m => rw [hbp] at h; simp at h
                | panic m => rw [hbp] at h; simp at h
                | fuel => rw [hbp] at h; simp at h
            | int n2 => simp at h
            | float b2 => simp at h
            | str s4 => simp at h
            | bool b2 => simp at h
            | list l2 => simp at h
            | object o2 => simp at h
            | module m2 => simp at h
            | null => simp at h
          | err m => rw [hA] at h; simp at h
          | panic m => rw [hA] at h; simp at h
          | fuel => rw [hA] at h; simp at h
    · -- evalArgs
      intro scopes args modules prototypes vs s2 h
      cases args with
      | nil =>
        simp only [evalArgs] at h
        simp at h
        rw [← h.2]
        exact framesKeyEq_refl scopes
      | cons a rest =>
        simp only [evalArgs] at h
        cases hE : evalExpression B f scopes a modules prototypes with
        | ok pr =>
          obtain ⟨v, s3⟩ := pr
          rw [hE] at h
          simp only [Res.bind_ok] at h
          cases hR : evalArgs B f s3 rest modules prototypes with
          | ok pr2 =>
            obtain ⟨vs2, s4⟩ := pr2
            rw [hR] at h
            simp only [Res.bind_ok] at h
            simp at h
            rw [← h.2]
            exact framesKeyEq_trans (ihE _ _ _ _ _ _ hE) (ihA _ _ _ _ _ _ hR)
          | err m => rw [hR] at h; simp at h
          | panic m => rw [hR] at h; simp at h
          | fuel => rw [hR] at h; simp at h
        | err m => rw [hE] at h; simp at h
        | panic m => rw [hE] at h; simp at h
        | fuel => rw [hE] at h; simp at h
    · -- evalStatement
      intro scopes stmt modules prototypes e s2 h
      cases stmt with
      | expressionStatement expr =>
        simp only [evalStatement] at h
        cases hE : evalExpression B f scopes expr modules prototypes with
        | ok pr =>
          obtain ⟨v, s3⟩ := pr
          rw [hE] at h
          simp at h
          rw [← h.2]
          have hk := ihE _ _ _ _ _ _ hE
          exact ⟨(framesKeyEq_length hk).symm, framesKeyEq_tail hk⟩
        | err m => rw [hE] at h; simp at h
        | panic m => rw [hE] at h; simp at h
        | fuel => rw [hE] at h; simp at h
      | letStatement name rhs =>
        simp only [evalStatement] at h
        cases hE : evalExpression B f scopes rhs modules prototypes with
        | ok pr =>
          obtain ⟨v, s3⟩ := pr
          rw [hE] at h
          simp only [Res.bind_ok] at h
          cases hD : ScopeStack.declare s3 name v .mutable with
          | ok s4 =>
            rw [hD] at h
            simp at h
            rw [← h.2]
            obtain ⟨fr, r, hs3, hs4⟩ := declare_shape hD
            have hk := ihE _ _ _ _ _ _ hE
            constructor
            · calc s4.length = s3.length := by rw [hs4, hs3]; rfl
                _ = scopes.length := (framesKeyEq_length hk).symm
            · have hts : s4.tail = s3.tail := by rw [hs4, hs3]; rfl
              rw [hts]
              exact framesKeyEq_tail hk
          | err m => rw [hD] at h; simp at h
          | panic m => rw [hD] at h; simp at h
          | fuel => rw [hD] at h; simp at h
        | err m => rw [hE] at h; simp at h
        | panic m => rw [hE] at h; simp at h
        | fuel => rw [hE] at h; simp at h
      | constStatement name rhs =>
        simp only [evalStatement] at h
        cases hE : evalExpression B f scopes rhs modules prototypes with
        | ok pr =>
          obtain ⟨v, s3⟩ := pr
          rw [hE] at h
          simp only [Res.bind_ok] at h
          cases hD : ScopeStack.declare s3 name v .immutable with
          | ok s4 =>
            rw [hD] at h
            simp at h
            rw [← h.2]
            obtain ⟨fr, r, hs3, hs4⟩ := declare_shape hD
            have hk := ihE _ _ _ _ _ _ hE
            constructor
            · calc s4.length = s3.length := by rw [hs4, hs3]; rfl
                _ = scopes.length := (framesKeyEq_length hk).symm
            · have hts : s4.tail = s3.tail := by rw [hs4, hs3]; rfl
              rw [hts]
              exact framesKeyEq_tail hk
          | err m => rw [hD] at h; simp at h
          | panic m => rw [hD] at h; simp at h
          | fuel => rw [hD] at h; simp at h
        | err m => rw [hE] at h; simp at h
        | panic m => rw [hE] at h; simp at h
        | fuel => rw [hE] at h; simp at h
      | importStatement args items =>
        simp only [evalStatement] at h
        cases hI : applyImports scopes modules args items with
        | ok s3 =>
          rw [hI] at h
          simp at h
          rw [← h.2]
          obtain ⟨hlen, htail⟩ := applyImports_shape _ _ _ _ _ hI
          refine ⟨hlen, ?_⟩
          rw [htail]
          exact framesKeyEq_refl _
        | err m => rw [hI] at h; simp at h
        | panic m => rw [hI] at h; simp at h
        | fuel => rw [hI] at h; simp at h
      | assignmentStatement name rhs =>
        simp only [evalStatement] at h
        cases hE : evalExpression B f scopes rhs modules prototypes with
        | ok pr =>
          obtain ⟨v, s3⟩ := pr
          rw [hE] at h
          simp only [Res.bind_ok] at h
          cases hAs : ScopeStack.assgin s3 name v with
          | ok s4 =>
            rw [hAs] at h
            simp at h
            rw [← h.2]
            have hk := framesKeyEq_trans (ihE _ _ _ _ _ _ hE)
              (assgin_framesKeyEq _ _ _ _ hAs)
            exact ⟨(framesKeyEq_length hk).symm, framesKeyEq_tail hk⟩
          | err m => rw [hAs] at h; simp at h
          | panic m => rw [hAs] at h; simp at h
          | fuel => rw [hAs] at h; simp at h
        | err m => rw [hE] at h; simp at h
        | panic m => rw [hE] at h; simp at h
        | fuel => rw [hE] at h; simp at h
      | ifStatement branchs elseBlock =>
        simp only [evalStatement] at h
        have hk := ihIf _ _ _ _ _ _ _ h
        exact ⟨(framesKeyEq_length hk).symm, framesKeyEq_tail hk⟩
      | returnStatement expr =>
        simp only [evalStatement] at h
        cases hE : evalExpression B f scopes expr modules prototypes with
        | ok pr =>
          obtain ⟨v, s3⟩ := pr
          rw [hE] at h
          simp at h
          rw [← h.2]
          have hk := ihE _ _ _ _ _ _ hE
          exact ⟨(framesKeyEq_length hk).symm, framesKeyEq_tail hk⟩
        | err m => rw [hE] at h; simp at h
        | panic m => rw [hE] at h; simp at h
        | fuel => rw [hE] at h; simp at h
      | fnStatement name args block =>
        simp only [evalStatement] at h
        cases hD : ScopeStack.declare scopes name (.func args block) .immutable with
        | ok s3 =>
          rw [hD] at h
          simp at h
          rw [← h.2]
          obtain ⟨fr, r, hs, hs3⟩ := declare_shape hD
          subst hs
          rw [hs3]
          exact ⟨rfl, framesKeyEq_refl _⟩
        | err m => rw [hD] at h; simp at h
        | panic m => rw [hD] at h; simp at h
        | fuel => rw [hD] at h; simp at h
      | forStatement lhs iter block =>
        simp only [evalStatement] at h
        cases hE : evalExpression B f scopes iter modules prototypes with
        | ok pr =>
          obtain ⟨itv, s3⟩ := pr
          rw [hE] at h
          simp only [Res.bind_ok] at h
          have hk1 := ihE _ _ _ _ _ _ hE
          cases itv with
          | list values =>
            have h2 : evalFor B f s3 lhs values block modules prototypes
                = .ok (e, s2) := h
            have hk2 := ihFor _ _ _ _ _ _ _ _ h2
            have hk := framesKeyEq_trans hk1 hk2
            exact ⟨(framesKeyEq_length hk).symm, framesKeyEq_tail hk⟩
          | int n2 => simp at h
          | float b2 => simp at h
          | str s4 => simp at h
          | bool b2 => simp at h
          | object o2 => simp at h
          | func p2 b2 => simp at h
          | builtinFn t2 => simp at h
          | module m2 => simp at h
          | null => simp at h
        | err m => rw [hE] at h; simp at h
        | panic m => rw [hE] at h; simp at h
        | fuel => rw [hE] at h; simp at h
      | breakStatement =>
        simp only [evalStatement] at h
        simp at h
        rw [← h.2]
        exact ⟨rfl, framesKeyEq_refl _⟩
      | continueStatement =>
        simp only [evalStatement] at h
        simp at h
        rw [← h.2]
        exact ⟨rfl, framesKeyEq_refl _⟩
      | whileStatement cond block =>
        simp only [evalStatement] at h
        have hk := ihW _ _ _ _ _ _ _ h
        exact ⟨(framesKeyEq_length hk).symm, framesKeyEq_tail hk⟩
      | moduleStatement name statements =>
        simp only [evalStatement] at h
        cases hM : evalModule B f scopes modules prototypes name statements with
        | ok pr =>
          obtain ⟨exps, s3⟩ := pr
          rw [hM] at h
          simp only [Res.bind_ok] at h
          cases hD : ScopeStack.declare s3 name (.module exps) .immutable with
          | ok s4 =>
            rw [hD] at h
            simp at h
            rw [← h.2]
            obtain ⟨fr, r, hs3, hs4⟩ := declare_shape hD
            have hk := ihM _ _ _ _ _ _ _ hM
            constructor
            · calc s4.length = s3.length := by rw [hs4, hs3]; rfl
                _ = scopes.length := (framesKeyEq_length hk).symm
            · have hts : s4.tail = s3.tail := by rw [hs4, hs3]; rfl
              rw [hts]
              exact framesKeyEq_tail hk
          | err m => rw [hD] at h; simp at h
          | panic m => rw [hD] at h; simp at h
          | fuel => rw [hD] at h; simp at h
        | err m => rw [hM] at h; simp at h
        | panic m => rw [hM] at h; simp at h
        | fuel => rw [hM] at h; simp at h
    · -- evalStatements
      intro scopes stmts modules prototypes e s2 h
      simp only [evalStatements] at h
      cases hQ : evalStmtSeq B f (ScopeStack.newFromPush scopes []) stmts
          modules prototypes with
      | ok pr =>
        obtain ⟨e2, inner⟩ := pr
        rw [hQ] at h
        simp at h
        rw [← h.2]
        exact (ihSeq _ _ _ _ _ _ hQ).2
      | err m => rw [hQ] at h; simp at h
      | panic m => rw [hQ] at h; simp at h
      | fuel => rw [hQ] at h; simp at h
    · -- evalStmtSeq
      intro scopes stmts modules prototypes e s2 h
      cases stmts with
      | nil =>
        simp only [evalStmtSeq] at h
        simp at h
        rw [← h.2]
        exact ⟨rfl, framesKeyEq_refl _⟩
      | cons stmt rest =>
        simp only [evalStmtSeq] at h
        cases hS : evalStatement B f scopes stmt modules prototypes with
        | ok pr =>
          obtain ⟨e2, s3⟩ := pr
          rw [hS] at h
          simp only [Res.bind_ok] at h
          have h1 := ihS _ _ _ _ _ _ hS
          cases stmt
          case fnStatement n2 a2 b2 =>
            have h2 := ihSeq _ _ _ _ _ _ h
            exact ⟨h2.1.trans h1.1, framesKeyEq_trans h1.2 h2.2⟩
          all_goals
            cases e2 with
            | none =>
              have h3 : evalStmtSeq B f s3 rest modules prototypes
                  = .ok (e, s2) := h
              have h2 := ihSeq _ _ _ _ _ _ h3
              exact ⟨h2.1.trans h1.1, framesKeyEq_trans h1.2 h2.2⟩
            | ret w =>
              simp at h
              rw [← h.2]
              exact h1
            | brk =>
              simp at h
              rw [← h.2]
              exact h1
            | cont =>
              simp at h
              rw [← h.2]
              exact h1
        | err m => rw [hS] at h; simp at h
        | panic m => rw [hS] at h; simp at h
        | fuel => rw [hS] at h; simp at h
    · -- evalIfBranches
      intro scopes branchs elseB modules prototypes e s2 h
      cases branchs with
      | nil =>
        cases elseB with
        | some stmts =>
          simp only [evalIfBranches] at h
          exact ihSS _ _ _ _ _ _ h
        | none =>
          simp only [evalIfBranches] at h
          simp at h
          rw [← h.2]
          exact framesKeyEq_refl _
      | cons br rest =>
        cases br with
        | mk cond stmts =>
          simp only [evalIfBranches] at h
          cases hE : evalExpression B f scopes cond modules prototypes with
          | ok pr =>
            obtain ⟨cv, s3⟩ := pr
            rw [hE] at h
            simp only [Res.bind_ok] at h
            have hk1 := ihE _ _ _ _ _ _ hE
            cases cv with
            | bool b =>
              cases b with
              | true =>
                have h2 : evalStatements B f s3 stmts modules prototypes
                    = .ok (e, s2) := h
                exact framesKeyEq_trans hk1 (ihSS _ _ _ _ _ _ h2)
              | false =>
                have h2 : evalIfBranches B f s3 rest elseB modules prototypes
                    = .ok (e, s2) := h
                exact framesKeyEq_trans hk1 (ihIf _ _ _ _ _ _ _ h2)
            | int n2 => simp at h
            | float b2 => simp at h
            | str s4 => simp at h
            | list l2 => simp at h
            | object o2 => simp at h
            | func p2 b2 => simp at h
            | builtinFn t2 => simp at h
            | module m2 => simp at h
            | null => simp at h
          | err m => rw [hE] at h; simp at h
          | panic m => rw [hE] at h; simp at h
          | fuel => rw [hE] at h; simp at h
    · -- evalFor
      intro scopes lhs values block modules prototypes e s2 h
      cases values with
      | nil =>
        simp only [evalFor] at h
        simp at h
        rw [← h.2]
        exact framesKeyEq_refl _
      | cons v rest =>
        simp only [evalFor] at h
        have hd : ScopeStack.declare (ScopeStack.newFromPush scopes []) lhs v .mutable
            = .ok ([(lhs, v, DeclType.mutable)] :: scopes) := rfl
        rw [hd] at h
        simp only [Res.bind_ok] at h
        cases hS : evalStatements B f ([(lhs, v, DeclType.mutable)] :: scopes)
            block modules prototypes with
        | ok pr =>
          obtain ⟨e2, inner2⟩ := pr
          rw [hS] at h
          simp only [Res.bind_ok] at h
          have hk := ihSS _ _ _ _ _ _ hS
          obtain ⟨g2, r2, hi2, hfk, hrk⟩ := framesKeyEq_cons_inv hk
          subst hi2
          cases e2 with
          | none =>
            have h2 : evalFor B f r2 lhs rest block modules prototypes
                = .ok (e, s2) := h
            exact framesKeyEq_trans hrk (ihFor _ _ _ _ _ _ _ _ h2)
          | cont =>
            have h2 : evalFor B f r2 lhs rest block modules prototypes
                = .ok (e, s2) := h
            exact framesKeyEq_trans hrk (ihFor _ _ _ _ _ _ _ _ h2)
          | ret w =>
            simp at h
            rw [← h.2]
            exact hrk
          | brk =>
            simp at h
            rw [← h.2]
            exact hrk
        | err m => rw [hS] at h; simp at h
        | panic m => rw [hS] at h; simp at h
        | fuel => rw [hS] at h; simp at h
    · -- evalWhile
      intro scopes cond block modules prototypes e s2 h
      simp only [evalWhile] at h
      cases hE : evalExpression B f scopes cond modules prototypes with
      | ok pr =>
        obtain ⟨cv, s3⟩ := pr
        rw [hE] at h
        simp only [Res.bind_ok] at h
        have hk1 := ihE _ _ _ _ _ _ hE
        cases cv with
        | bool b =>
          cases b with
          | false =>
            simp at h
            rw [← h.2]
            exact hk1
          | true =>
            cases hS : evalStatements B f s3 block modules prototypes with
            | ok pr2 =>
              obtain ⟨e2, s4⟩ := pr2
              have h4 : (evalStatements B f s3 block modules prototypes >>=
                  fun x =>
                    match x with
                    | (ret, s4) =>
                      match ret with
                      | .none => evalWhile B f s4 cond block modules prototypes
                      | .cont => evalWhile B f s4 cond block modules prototypes
                      | .ret v => .ok (.ret v, s4)
                      | .brk => .ok (.none, s4)) = .ok (e, s2) := h
              rw [hS] at h4
              simp only [Res.bind_ok] at h4
              have hk2 := framesKeyEq_trans hk1 (ihSS _ _ _ _ _ _ hS)
              cases e2 with
              | none => exact framesKeyEq_trans hk2 (ihW _ _ _ _ _ _ _ h4)
              | cont => exact framesKeyEq_trans hk2 (ihW _ _ _ _ _ _ _ h4)
              | ret w =>
                simp at h4
                rw [← h4.2]
                exact hk2
              | brk =>
                simp at h4
                rw [← h4.2]
                exact hk2
            | err m =>
              have h4 : (evalStatements B f s3 block modules prototypes >>=
                  fun x =>
                    match x with
                    | (ret, s4) =>
                      match ret with
                      | .none => evalWhile B f s4 cond block modules prototypes
                      | .cont => evalWhile B f s4 cond block modules prototypes
                      | .ret v => .ok (.ret v, s4)
                      | .brk => .ok (.none, s4)) = .ok (e, s2) := h
              rw [hS] at h4
              simp at h4
            | panic m =>
              have h4 : (evalStatements B f s3 block modules prototypes >>=
                  fun x =>
                    match x with
                    | (ret, s4) =>
                      match ret with
                      | .none => evalWhile B f s4 cond block modules prototypes
                      | .cont => evalWhile B f s4 cond block modules prototypes
                      | .ret v => .ok (.ret v, s4)
                      | .brk => .ok (.none, s4)) = .ok (e, s2) := h
              rw [hS] at h4
              simp at h4
            | fuel =>
              have h4 : (evalStatements B f s3 block modules prototypes >>=
                  fun x =>
                    match x with
                    | (ret, s4) =>
                      match ret with
                      | .none => evalWhile B f s4 cond block modules prototypes
                      | .cont => evalWhile B f s4 cond block modules prototypes
                      | .ret v => .ok (.ret v, s4)
                      | .brk => .ok (.none, s4)) = .ok (e, s2) := h
              rw [hS] at h4
              simp at h4
        | int n2 => simp at h
        | float b2 => simp at h
        | str s4 => simp at h
        | list l2 => simp at h
        | object o2 => simp at h
        | func p2 b2 => simp at h
        | builtinFn t2 => simp at h
        | module m2 => simp at h
        | null => simp at h
      | err m => rw [hE] at h; simp at h
      | panic m => rw [hE] at h; simp at h
      | fuel => rw [hE] at h; simp at h
    · -- evalModule
      intro scopes modules prototypes name stmts exps s2 h
      simp only [evalModule] at h
      cases hB : evalModuleBody B f (ScopeStack.newFromPush scopes []) [] stmts
          modules prototypes with
      | ok pr =>
        obtain ⟨ex2, inner⟩ := pr
        rw [hB] at h
        simp only [Res.bind_ok] at h
        have hk : framesKeyEq (([] : Scope) :: scopes) inner :=
          ihMB _ _ _ _ _ _ _ hB
        obtain ⟨h2, r2, hi, hfk, hrk⟩ := framesKeyEq_cons_inv hk
        subst hi
        cases hD : ScopeStack.declare (h2 :: r2) name (.module ex2) .immutable with
        | ok inner2 =>
          rw [hD] at h
          simp at h
          rw [← h.2]
          obtain ⟨fr, r, hshape1, hshape2⟩ := declare_shape hD
          injection hshape1 with hf2 hr2
          rw [hshape2, ← hr2]
          exact hrk
        | err m => rw [hD] at h; simp at h
        | panic m => rw [hD] at h; simp at h
        | fuel => rw [hD] at h; simp at h
      | err m => rw [hB] at h; simp at h
      | panic m => rw [hB] at h; simp at h
      | fuel => rw [hB] at h; simp at h
    · -- evalModuleBody
      intro innerScope exports stmts modules prototypes exps s2 h
      cases stmts with
      | nil =>
        simp only [evalModuleBody] at h
        simp at h
        rw [← h.2]
        exact framesKeyEq_refl _
      | cons stmt rest =>
        cases stmt with
        | constStatement n expr =>
          simp only [evalModuleBody] at h
          cases hE : evalExpression B f innerScope expr modules prototypes with
          | ok pr =>
            obtain ⟨v, s3⟩ := pr
            rw [hE] at h
            simp only [Res.bind_ok] at h
            exact framesKeyEq_trans (ihE _ _ _ _ _ _ hE) (ihMB _ _ _ _ _ _ _ h)
          | err m => rw [hE] at h; simp at h
          | panic m => rw [hE] at h; simp at h
          | fuel => rw [hE] at h; simp at h
        | letStatement n expr =>
          simp only [evalModuleBody] at h
          cases hE : evalExpression B f innerScope expr modules prototypes with
          | ok pr =>
            obtain ⟨v, s3⟩ := pr
            rw [hE] at h
            simp only [Res.bind_ok] at h
            exact framesKeyEq_trans (ihE _ _ _ _ _ _ hE) (ihMB _ _ _ _ _ _ _ h)
          | err m => rw [hE] at h; simp at h
          | panic m => rw [hE] at h; simp at h
          | fuel => rw [hE] at h; simp at h
        | fnStatement n a b =>
          simp only [evalModuleBody] at h
          exact ihMB _ _ _ _ _ _ _ h
        | moduleStatement n2 st2 =>
          simp only [evalModuleBody] at h
          cases hM : evalModule B f innerScope modules prototypes n2 st2 with
          | ok pr =>
            obtain ⟨ex2, s3⟩ := pr
            rw [hM] at h
            simp only [Res.bind_ok] at h
            exact framesKeyEq_trans (ihM _ _ _ _ _ _ _ hM) (ihMB _ _ _ _ _ _ _ h)
          | err m => rw [hM] at h; simp at h
          | panic m => rw [hM] at h; simp at h
          | fuel => rw [hM] at h; simp at h
        | expressionStatement e2 => simp [evalModuleBody] at h
        | importStatement a2 i2 => simp [evalModuleBody] at h
        | assignmentStatement n2 r2 => simp [evalModuleBody] at h
        | ifStatement b2 e2 => simp [evalModuleBody] at h
        | returnStatement e2 => simp [evalModuleBody] at h
        | forStatement l2 i2 b2 => simp [evalModuleBody] at h
        | breakStatement => simp [evalModuleBody] at h
        | continueStatement => simp [evalModuleBody] at h
        | whileStatement c2 b2 => simp [evalModuleBody] at h

/-- Module body processing decomposes over list append: the body runs its
prefix first (threading scope and exports) and then the remainder, one unit of
fuel being spent per statement. -/
theorem evalModuleBody_append (B : BuiltinImpl) (modules : List Export)
    (prototypes : Prototypes) : ∀ (pre : List Statement) (fuel : Nat)
    (s : ScopeStack) (e : List (String × Value)) (rest : List Statement),
    evalModuleBody B fuel s e (pre ++ rest) modules prototypes =
      match evalModuleBody B fuel s e pre modules prototypes with
      | .ok (e1, s1) =>
        evalModuleBody B (fuel - pre.length) s1 e1 rest modules prototypes
      | .err m => .err m
      | .panic m => .panic m
      | .fuel => .fuel := by
  intro pre
  induction pre with
  | nil =>
    intro fuel s e rest
    cases fuel with
    | zero => rfl
    | succ f => rfl
  | cons d pre2 ih =>
    intro fuel s e rest
    cases fuel with
    | zero => rfl
    | succ f =>
      cases d with
      | constStatement n expr =>
        simp only [List.cons_append, evalModuleBody, List.length_cons,
          Nat.succ_sub_succ]
        cases hE : evalExpression B f s expr modules prototypes with
        | ok pr =>
          obtain ⟨v, s3⟩ := pr
          simp only [Res.bind_ok]
          exact ih f s3 (btreeInsert e n v) rest
        | err m => rfl
        | panic m => rfl
        | fuel => rfl
      | letStatement n expr =>
        simp only [List.cons_append, evalModuleBody, List.length_cons,
          Nat.succ_sub_succ]
        cases hE : evalExpression B f s expr modules prototypes with
        | ok pr =>
          obtain ⟨v, s3⟩ := pr
          simp only [Res.bind_ok]
          exact ih f s3 (btreeInsert e n v) rest
        | err m => rfl
        | panic m => rfl
        | fuel => rfl
      | fnStatement n args block =>
        simp only [List.cons_append, evalModuleBody, List.length_cons,
          Nat.succ_sub_succ]
        exact ih f s (btreeInsert e n (.func args block)) rest
      | moduleStatement n2 st2 =>
        simp only [List.cons_append, evalModuleBody, List.length_cons,
          Nat.succ_sub_succ]
        cases hM : evalModule B f s modules prototypes n2 st2 with
        | ok pr =>
          obtain ⟨ex2, s3⟩ := pr
          simp only [Res.bind_ok]
          exact ih f s3 (btreeInsert e n2 (.module ex2)) rest
        | err m => rfl
        | panic m => rfl
        | fuel => rfl
      | expressionStatement e2 => rfl
      | importStatement a2 i2 => rfl
      | assignmentStatement n2 r2 => rfl
      | ifStatement b2 e2 => rfl
      | returnStatement e2 => rfl
      | forStatement l2 i2 b2 => rfl
      | breakStatement => rfl
      | continueStatement => rfl
      | whileStatement c2 b2 => rfl

theorem btreeLookup_btreeInsert (e : List (String × Value)) (k : String)
    (v : Value) : ∀ n, btreeLookup (btreeInsert e k v) n
      = if k = n then some v else btreeLookup e n := by
  induction e with
  | nil => intro n; rfl
  | cons p rest ih =>
    obtain ⟨k1, v1⟩ := p
    intro n
    simp only [btreeInsert]
    split
    next h1 => rfl
    next h1 =>
      split
      next h2 =>
        subst h2
        simp only [btreeLookup]
        by_cases h3 : k = n
        · simp [h3]
        · simp [h3]
      next h2 =>
        simp only [btreeLookup]
        by_cases h3 : k1 = n
        · have h4 : k ≠ n := by
            intro hcon
            exact h2 (by rw [hcon, h3])
          simp [h3, h4]
        · simp [h3, ih]

theorem btreeLookup_foldl (ds : List (String × Value)) :
    ∀ (e : List (String × Value)) (n : String),
      btreeLookup (List.foldl (fun acc kv => btreeInsert acc kv.1 kv.2) e ds) n
        = match lastValue ds n with
          | some v => some v
          | none => btreeLookup e n := by
  induction ds with
  | nil => intro e n; rfl
  | cons d ds2 ih =>
    obtain ⟨k, v⟩ := d
    intro e n
    simp only [List.foldl_cons]
    rw [ih]
    simp only [lastValue]
    cases hL : lastValue ds2 n with
    | some w => rfl
    | none =>
      rw [btreeLookup_btreeInsert]
      by_cases h3 : k = n
      · simp [h3]
      · simp [h3]

/-- evalModuleBody is the fold of btreeInsert over the source-order trace of
declarations computed by moduleDecls: the evaluation outcome (ok, err, panic)
never depends on the exports accumulated so far. -/
theorem evalModuleBody_eq_moduleDecls (B : BuiltinImpl) (modules : List Export)
    (prototypes : Prototypes) : ∀ (fuel : Nat) (innerScope : ScopeStack)
    (e : List (String × Value)) (stmts : List Statement),
    evalModuleBody B fuel innerScope e stmts modules prototypes =
      match moduleDecls B fuel innerScope stmts modules prototypes with
      | .ok (ds, s2) =>
        .ok (List.foldl (fun acc kv => btreeInsert acc kv.1 kv.2) e ds, s2)
      | .err m => .err m
      | .panic m => .panic m
      | .fuel => .fuel := by
  intro fuel
  induction fuel with
  | zero => intro s e stmts; rfl
  | succ f ih =>
    intro s e stmts
    cases stmts with
    | nil => rfl
    | cons stmt rest =>
      cases stmt with
      | constStatement n expr =>
        simp only [evalModuleBody, moduleDecls]
        cases hE : evalExpression B f s expr modules prototypes with
        | ok pr =>
          obtain ⟨v, s3⟩ := pr
          simp only [Res.bind_ok]
          rw [ih s3 (btreeInsert e n v) rest]
          cases hD : moduleDecls B f s3 rest modules prototypes with
          | ok pr2 =>
            obtain ⟨ds, s4⟩ := pr2
            simp only [Res.bind_ok, List.foldl_cons]
          | err m => rfl
          | panic m => rfl
          | fuel => rfl
        | err m => rfl
        | panic m => rfl
        | fuel => rfl
      | letStatement n expr =>
        simp only [evalModuleBody, moduleDecls]
        cases hE : evalExpression B f s expr modules prototypes with
        | ok pr =>
          obtain ⟨v, s3⟩ := pr
          simp only [Res.bind_ok]
          rw [ih s3 (btreeInsert e n v) rest]
          cases hD : moduleDecls B f s3 rest modules prototypes with
          | ok pr2 =>
            obtain ⟨ds, s4⟩ := pr2
            simp only [Res.bind_ok, List.foldl_cons]
          | err m => rfl
          | panic m => rfl
          | fuel => rfl
        | err m => rfl
        | panic m => rfl
        | fuel => rfl
      | fnStatement n args block =>
        simp only [evalModuleBody, moduleDecls]
        rw [ih s (btreeInsert e n (.func args block)) rest]
        cases hD : moduleDecls B f s rest modules prototypes with
        | ok pr2 =>
          obtain ⟨ds, s4⟩ := pr2
          simp only [Res.bind_ok, List.foldl_cons]
        | err m => rfl
        | panic m => rfl
        | fuel => rfl
      | moduleStatement n2 st2 =>
        simp only [evalModuleBody, moduleDecls]
        cases hM : evalModule B f s modules prototypes n2 st2 with
        | ok pr =>
          obtain ⟨ex2, s3⟩ := pr
          simp only [Res.bind_ok]
          rw [ih s3 (btreeInsert e n2 (.module ex2)) rest]
          cases hD : moduleDecls B f s3 rest modules prototypes with
          | ok pr2 =>
            obtain ⟨ds, s4⟩ := pr2
            simp only [Res.bind_ok, List.foldl_cons]
          | err m => rfl
          | panic m => rfl
          | fuel => rfl
        | err m => rfl
        | panic m => rfl
        | fuel => rfl
      | expressionStatement e2 => rfl
      | importStatement a2 i2 => rfl
      | assignmentStatement n2 r2 => rfl
      | ifStatement b2 e2 => rfl
      | returnStatement e2 => rfl
      | forStatement l2 i2 b2 => rfl
      | breakStatement => rfl
      | continueStatement => rfl
      | whileStatement c2 b2 => rfl

/-- C9. For every module body (any mix of the four declaration kinds,
duplicate names of any kind included): processing the body never consults the
export table accumulated so far — the outcome equals folding btreeInsert over
the source-order trace of declarations computed by moduleDecls — so a name
already present in the table can never raise an error, there being no
duplicate-declaration check anywhere in module evaluation (first conjunct);
and whenever module evaluation succeeds, the resulting export table maps every
name to the value of the last declaration of that name in source order, all
earlier same-name declarations silently overwritten (second conjunct). -/
theorem evalModule_duplicate_last_wins (B : BuiltinImpl) (fuel : Nat)
    (scopes : ScopeStack) (modules : List Export) (prototypes : Prototypes)
    (mname : String) (statements : List Statement) :
    (∀ innerScope e,
      evalModuleBody B fuel innerScope e statements modules prototypes
        = match moduleDecls B fuel innerScope statements modules prototypes with
          | .ok (ds, s2) =>
            .ok (List.foldl (fun acc kv => btreeInsert acc kv.1 kv.2) e ds, s2)
          | .err m => .err m
          | .panic m => .panic m
          | .fuel => .fuel)
    ∧ (∀ exps st2,
        evalModule B (fuel + 1) scopes modules prototypes mname statements
          = .ok (exps, st2) →
        ∃ ds s2,
          moduleDecls B fuel (ScopeStack.newFromPush scopes []) statements
              modules prototypes = .ok (ds, s2)
          ∧ exps = List.foldl (fun acc kv => btreeInsert acc kv.1 kv.2) [] ds
          ∧ ∀ n, btreeLookup exps n = lastValue ds n) := by
  constructor
  · intro innerScope e
    exact evalModuleBody_eq_moduleDecls B modules prototypes fuel innerScope e
      statements
  · intro exps st2 h
    simp only [evalModule] at h
    rw [evalModuleBody_eq_moduleDecls B modules prototypes fuel
      (ScopeStack.newFromPush scopes []) [] statements] at h
    cases hD : moduleDecls B fuel (ScopeStack.newFromPush scopes []) statements
        modules prototypes with
    | ok pr =>
      obtain ⟨ds, s2⟩ := pr
      rw [hD] at h
      have h2 : (ScopeStack.declare s2 mname
          (Value.module (List.foldl (fun acc kv => btreeInsert acc kv.1 kv.2) [] ds))
          DeclType.immutable >>= fun inner2 =>
          (Res.ok (List.foldl (fun acc kv => btreeInsert acc kv.1 kv.2) [] ds,
            inner2.tail) : Res (List (String × Value) × ScopeStack)))
          = .ok (exps, st2) := h
      cases hDec : ScopeStack.declare s2 mname
          (Value.module (List.foldl (fun acc kv => btreeInsert acc kv.1 kv.2) [] ds))
          DeclType.immutable with
      | ok inner2 =>
        rw [hDec] at h2
        simp only [Res.bind_ok] at h2
        have hpair : (List.foldl (fun acc kv => btreeInsert acc kv.1 kv.2) [] ds,
            inner2.tail) = (exps, st2) := by
          injection h2
        have hexps : List.foldl (fun acc kv => btreeInsert acc kv.1 kv.2) [] ds
            = exps := congrArg Prod.fst hpair
        refine ⟨ds, s2, rfl, hexps.symm, ?_⟩
        intro n
        rw [← hexps, btreeLookup_foldl]
        cases hL : lastValue ds n with
        | some v => rfl
        | none => rfl
      | err m => rw [hDec] at h2; simp at h2
      | panic m => rw [hDec] at h2; simp at h2
      | fuel => rw [hDec] at h2; simp at h2
    | err m => rw [hD] at h; simp at h
    | panic m => rw [hD] at h; simp at h
    | fuel => rw [hD] at h; simp at h

/-- Witness for C9 at a concrete body with three declarations of the name a
across three kinds (function, const, let) plus one of b: module evaluation
succeeds, the source-order trace keeps all four declarations, and the export
table maps a to the value of its last declaration. -/
theorem evalModule_duplicate_last_wins_witness :
    (evalModule noBuiltins 10 [[]] [] () "m"
        [.fnStatement "a" [] [], .constStatement "a" (.literal (.int 1)),
         .letStatement "b" (.literal (.int 2)),
         .letStatement "a" (.literal (.int 3))]
      = .ok ([("a", Value.int 3), ("b", Value.int 2)], [[]]))
    ∧ btreeLookup [("a", Value.int 3), ("b", Value.int 2)] "a"
        = some (Value.int 3)
    ∧ lastValue [("a", Value.func [] []), ("a", Value.int 1),
        ("b", Value.int 2), ("a", Value.int 3)] "a" = some (Value.int 3) := by
  refine ⟨rfl, ?_, rfl⟩
  obtain ⟨ds, s2, h1, h2, h3⟩ :=
    (evalModule_duplicate_last_wins noBuiltins 9 [[]] [] () "m"
      [.fnStatement "a" [] [], .constStatement "a" (.literal (.int 1)),
       .letStatement "b" (.literal (.int 2)),
       .letStatement "a" (.literal (.int 3))]).2
      [("a", Value.int 3), ("b", Value.int 2)] [[]] rfl
  have hD : moduleDecls noBuiltins 9 (ScopeStack.newFromPush [[]] [])
      [.fnStatement "a" [] [], .constStatement "a" (.literal (.int 1)),
       .letStatement "b" (.literal (.int 2)),
       .letStatement "a" (.literal (.int 3))] [] ()
      = .ok ([("a", Value.func [] []), ("a", Value.int 1),
          ("b", Value.int 2), ("a", Value.int 3)], [[], []]) := rfl
  rw [hD] at h1
  have hpair : (([("a", Value.func [] []), ("a", Value.int 1),
      ("b", Value.int 2), ("a", Value.int 3)] : List (String × Value)),
      ([[], []] : ScopeStack)) = (ds, s2) := by
    injection h1
  have hds : ds = [("a", Value.func [] []), ("a", Value.int 1),
      ("b", Value.int 2), ("a", Value.int 3)] :=
    (congrArg Prod.fst hpair).symm
  have h4 := h3 "a"
  rw [hds] at h4
  exact h4

/-- C8. Module bodies bind nothing into the scope stack they run over:
processing a module body preserves the key set of every frame of the pushed
child view, declarations going only into the export table (first conjunct); so
in any module body, at any position, a declaration whose right-hand side
refers by identifier to a name not bound outside the body — in particular a
name introduced only by earlier declarations of the same body, even one
already sitting in the export table — fails with the undefined-name error
(second conjunct), while a name that the outer scopes do bind still resolves
after any body prefix has run (third conjunct); and the module own name is
declared into the child frame only after all body statements have run, that
frame still holding no key at that point so the declare always succeeds, and
the child frame is dropped from the returned stack (fourth conjunct). -/
theorem evalModule_no_scope_bindings (B : BuiltinImpl) (fuel : Nat)
    (modules : List Export) (prototypes : Prototypes) (mname : String) :
    (∀ innerScope e stmts exps s2,
      evalModuleBody B fuel innerScope e stmts modules prototypes
        = .ok (exps, s2) →
      framesKeyEq innerScope s2)
    ∧ (∀ outer pre m x post e1 s1,
        ScopeStack.get outer x = none →
        evalModuleBody B fuel (ScopeStack.newFromPush outer []) [] pre modules
            prototypes = .ok (e1, s1) →
        btreeLookup e1 x ≠ none →
        pre.length + 2 ≤ fuel →
        evalModule B (fuel + 1) outer modules prototypes mname
            (pre ++ .constStatement m (.identifier x) :: post)
          = .err ("variable " ++ x ++ " is not defied"))
    ∧ (∀ outer pre x e1 s1 v,
        ScopeStack.get outer x = some v →
        evalModuleBody B fuel (ScopeStack.newFromPush outer []) [] pre modules
            prototypes = .ok (e1, s1) →
        (ScopeStack.get s1 x).isSome = true)
    ∧ (∀ scopes stmts exps inner,
        evalModuleBody B fuel (ScopeStack.newFromPush scopes []) [] stmts
            modules prototypes = .ok (exps, inner) →
        ∃ hd outer2, inner = hd :: outer2 ∧ (∀ k, scopeGet hd k = none)
          ∧ evalModule B (fuel + 1) scopes modules prototypes mname stmts
              = .ok (exps, outer2)) := by
  refine ⟨?_, ?_, ?_, ?_⟩
  · intro innerScope e stmts exps s2 h
    exact (eval_preserves_keys B fuel).2.2.2.2.2.2.2.2.2 innerScope e stmts
      modules prototypes exps s2 h
  · intro outer pre m x post e1 s1 hx hpre hexp hfuel
    have hkey := (eval_preserves_keys B fuel).2.2.2.2.2.2.2.2.2
      (ScopeStack.newFromPush outer []) [] pre modules prototypes e1 s1 hpre
    have hiso := framesKeyEq_get_isSome hkey x
    have hred : ScopeStack.get (ScopeStack.newFromPush outer []) x
        = ScopeStack.get outer x := rfl
    rw [hred, hx] at hiso
    have hget : ScopeStack.get s1 x = none := by
      cases hg : ScopeStack.get s1 x with
      | none => rfl
      | some w => rw [hg] at hiso; simp at hiso
    obtain ⟨k, hk⟩ : ∃ k, fuel - pre.length = k + 1 + 1 :=
      ⟨fuel - pre.length - 2, by omega⟩
    have hsplit := evalModuleBody_append B modules prototypes pre fuel
      (ScopeStack.newFromPush outer []) []
      (.constStatement m (.identifier x) :: post)
    rw [hpre] at hsplit
    have hstep : evalModuleBody B fuel (ScopeStack.newFromPush outer []) []
        (pre ++ .constStatement m (.identifier x) :: post) modules prototypes
        = evalModuleBody B (fuel - pre.length) s1 e1
            (.constStatement m (.identifier x) :: post) modules prototypes :=
      hsplit
    have hbad : evalModuleBody B (fuel - pre.length) s1 e1
        (.constStatement m (.identifier x) :: post) modules prototypes
        = .err ("variable " ++ x ++ " is not defied") := by
      rw [hk]
      simp [evalModuleBody, evalExpression, hget]
    simp only [evalModule]
    rw [hstep, hbad]
    rfl
  · intro outer pre x e1 s1 v hx hpre
    have hkey := (eval_preserves_keys B fuel).2.2.2.2.2.2.2.2.2
      (ScopeStack.newFromPush outer []) [] pre modules prototypes e1 s1 hpre
    have hiso := framesKeyEq_get_isSome hkey x
    have hred : ScopeStack.get (ScopeStack.newFromPush outer []) x
        = ScopeStack.get outer x := rfl
    rw [hred, hx] at hiso
    exact hiso.symm
  · intro scopes stmts exps inner hbody
    have hkey := (eval_preserves_keys B fuel).2.2.2.2.2.2.2.2.2
      (ScopeStack.newFromPush scopes []) [] stmts modules prototypes exps inner
      hbody
    obtain ⟨hd, outer2, hi, hfk, hrk⟩ := framesKeyEq_cons_inv hkey
    have hkeys : ∀ k, scopeGet hd k = none := by
      intro k
      have hx := hfk k
      cases hg : scopeGet hd k with
      | none => rfl
      | some w => rw [hg] at hx; simp [scopeGet] at hx
    refine ⟨hd, outer2, hi, hkeys, ?_⟩
    simp only [evalModule]
    rw [hbody]
    have hdec : ScopeStack.declare (hd :: outer2) mname (Value.module exps)
        DeclType.immutable
        = .ok (scopeInsert hd mname (Value.module exps) DeclType.immutable
            :: outer2) := by
      simp [ScopeStack.declare, hkeys mname]
    have hgoal : (ScopeStack.declare inner mname (Value.module exps)
        DeclType.immutable >>= fun inner2 =>
        (Res.ok (exps, inner2.tail) : Res (List (String × Value) × ScopeStack)))
        = Res.ok (exps, outer2) := by
      rw [hi, hdec]
      rfl
    exact hgoal

/-- Witness for C8 at concrete inputs: with nothing bound outside, the body
const a = 1; const b = a fails with the undefined-name error for a even though
a is already in the export table after the first statement; a one-statement
body runs with the child frame still keyless at the end and the module value
is returned over the unchanged outer stack; and a name bound outside the
module body still resolves after a body prefix has run. -/
theorem evalModule_no_scope_bindings_witness :
    (evalModule noBuiltins 11 [[]] [] () "m"
        [.constStatement "a" (.literal (.int 1)),
         .constStatement "b" (.identifier "a")]
      = .err "variable a is not defied")
    ∧ (evalModule noBuiltins 11 [[]] [] () "m"
        [.constStatement "b" (.literal (.int 2))]
      = .ok ([("b", Value.int 2)], [[]]))
    ∧ (ScopeStack.get [[], [("a", Value.int 5, DeclType.mutable)]] "a").isSome
        = true := by
  refine ⟨?_, ?_, ?_⟩
  · exact (evalModule_no_scope_bindings noBuiltins 10 [] () "m").2.1
      [[]] [.constStatement "a" (.literal (.int 1))] "b" "a" []
      [("a", Value.int 1)] [[], []] rfl rfl
      (by intro hcon; exact Option.noConfusion hcon) (by decide)
  · obtain ⟨hd, outer2, hi, hkeys, heval⟩ :=
      (evalModule_no_scope_bindings noBuiltins 10 [] () "m").2.2.2
        [[]] [.constStatement "b" (.literal (.int 2))] [("b", Value.int 2)]
        [[], []] rfl
    injection hi with hh ht
    rw [← ht] at heval
    exact heval
  · exact (evalModule_no_scope_bindings noBuiltins 10 [] () "m").2.2.1
      [[("a", Value.int 5, DeclType.mutable)]] [] "a" []
      [[], [("a", Value.int 5, DeclType.mutable)]] (Value.int 5) rfl rfl
